import Mathlib

/-!
Verification of the HR data-cleaning pipeline (`clean_hr_data` in
`HR_Data_cleaning.py`).

The pipeline is modelled by a shallow embedding:

* a table is a list of named columns; a cell is `Option Val`, where a `Val`
  is either a rational number (modelling the numeric cells that pandas
  stores as `int64`/`float64`) or a string; `none` models a missing value
  (`NaN`);
* the pandas dtype of a column is derived from its cells exactly as
  `pd.read_csv` would assign it: a column containing a string cell is
  `object`; otherwise a column containing a null or a non-integral number
  is `float64`; otherwise it is `int64`;
* each stage of the source function becomes a function
  `Table → Except String Table`; an `Except.error` models an uncaught
  Python exception (`KeyError`, `TypeError`, `ValueError`);
* the surrounding `try/except` of the loading step becomes a `LoadResult`
  argument: `pd.read_csv` is an external collaborator, so only its three
  observable outcomes (a parsed table, `FileNotFoundError`, any other
  reading exception) are modelled;
* the statistical helpers (`Series.median`, `Series.mode`,
  `pd.get_dummies` with `drop_first=True`) are translated from their
  library semantics: median = midpoint of the sorted non-null values,
  mode = ascending-sorted list of the most frequent non-null values,
  get_dummies = drop the encoded columns and append, per encoded column,
  one 0/1 indicator column per distinct observed value minus the smallest.
-/

/-- A cell value: a numeric value (pandas `int64`/`float64`, modelled
exactly by a rational) or a string. -/
inductive Val where
  | num (q : ℚ)
  | str (s : String)
deriving DecidableEq

/-- A cell: `none` is a missing value (`NaN`). -/
abbrev Cell := Option Val

/-- A named column. -/
structure Column where
  name : String
  cells : List Cell
deriving DecidableEq

/-- A data frame: an ordered list of named columns. -/
abbrev Table := List Column

/-- Lexicographic comparison of character lists by code point, the
ordering pandas uses on strings. -/
def charListLe : List Char → List Char → Bool
  | [], _ => true
  | _ :: _, [] => false
  | a :: as, b :: bs =>
    if a < b then true else if b < a then false else charListLe as bs

theorem charListLe_total : ∀ a b : List Char,
    charListLe a b = true ∨ charListLe b a = true
  | [], _ => Or.inl rfl
  | _ :: _, [] => Or.inr rfl
  | a :: as, b :: bs => by
    by_cases h1 : a < b
    · left
      simp [charListLe, h1]
    · by_cases h2 : b < a
      · right
        simp [charListLe, h2]
      · have hab : a = b := le_antisymm (not_lt.mp h2) (not_lt.mp h1)
        subst hab
        rcases charListLe_total as bs with h | h
        · left
          simp [charListLe, lt_irrefl, h]
        · right
          simp [charListLe, lt_irrefl, h]

theorem charListLe_trans : ∀ {a b c : List Char},
    charListLe a b = true → charListLe b c = true → charListLe a c = true
  | [], _, _, _, _ => rfl
  | _ :: _, [], _, hab, _ => by simp [charListLe] at hab
  | _ :: _, _ :: _, [], _, hbc => by simp [charListLe] at hbc
  | a :: as, b :: bs, c :: cs, hab, hbc => by
    simp only [charListLe] at hab hbc ⊢
    by_cases h1 : a < b
    · by_cases h2 : b < c
      · simp [lt_trans h1 h2]
      · by_cases h3 : c < b
        · simp [h2, h3] at hbc
        · have hbc' : b = c := le_antisymm (not_lt.mp h3) (not_lt.mp h2)
          subst hbc'
          simp [h1]
    · by_cases h4 : b < a
      · simp [h1, h4] at hab
      · have hba : a = b := le_antisymm (not_lt.mp h4) (not_lt.mp h1)
        subst hba
        simp only [lt_irrefl, if_false] at hab
        by_cases h2 : a < c
        · simp [h2]
        · by_cases h3 : c < a
          · simp [h2, h3] at hbc
          · simp only [h2, h3, if_false] at hbc ⊢
            exact charListLe_trans hab hbc

theorem charListLe_antisymm : ∀ {a b : List Char},
    charListLe a b = true → charListLe b a = true → a = b
  | [], [], _, _ => rfl
  | [], _ :: _, _, hba => by simp [charListLe] at hba
  | _ :: _, [], hab, _ => by simp [charListLe] at hab
  | a :: as, b :: bs, hab, hba => by
    simp only [charListLe] at hab hba
    by_cases h1 : a < b
    · simp [h1, asymm h1] at hba
    · by_cases h2 : b < a
      · simp [h1, h2] at hab
      · have hb : a = b := le_antisymm (not_lt.mp h2) (not_lt.mp h1)
        subst hb
        simp only [lt_irrefl, if_false] at hab hba
        exact congrArg (a :: ·) (charListLe_antisymm hab hba)

/-- Ordering on cell values, used by `Series.mode` (which returns its
result sorted ascending) and by `pd.get_dummies` (which orders the
distinct category values ascending).  Numbers sort before strings;
numbers sort by value and strings lexicographically by code point. -/
def Val.le : Val → Val → Prop
  | .num x, .num y => x ≤ y
  | .num _, .str _ => True
  | .str _, .num _ => False
  | .str x, .str y => charListLe x.data y.data = true

instance : LE Val := ⟨Val.le⟩

instance Val.decLe : DecidableRel (α := Val) (· ≤ ·) := fun a b =>
  match a, b with
  | .num x, .num y => decidable_of_iff (x ≤ y) Iff.rfl
  | .num _, .str _ => .isTrue trivial
  | .str _, .num _ => .isFalse id
  | .str x, .str y =>
    decidable_of_iff (charListLe x.data y.data = true) Iff.rfl

instance Val.leTotal : IsTotal Val (· ≤ ·) := by
  constructor
  intro a b
  cases a with
  | num x =>
    cases b with
    | num y => exact le_total x y
    | str _ => exact Or.inl trivial
  | str x =>
    cases b with
    | num _ => exact Or.inr trivial
    | str y => exact charListLe_total x.data y.data

instance Val.leTrans : IsTrans Val (· ≤ ·) := by
  constructor
  intro a b c hab hbc
  cases a <;> cases b <;> cases c
  case num.num.num x y z =>
    exact le_trans (show x ≤ y from hab) (show y ≤ z from hbc)
  case num.num.str => exact trivial
  case num.str.num => exact hbc.elim
  case num.str.str => exact trivial
  case str.num.num => exact hab.elim
  case str.num.str => exact hab.elim
  case str.str.num => exact hbc.elim
  case str.str.str x y z => exact charListLe_trans hab hbc

instance Val.leAntisymm : IsAntisymm Val (· ≤ ·) := by
  constructor
  intro a b hab hba
  cases a <;> cases b
  case num.num x y =>
    exact congrArg Val.num (le_antisymm (show x ≤ y from hab) (show y ≤ x from hba))
  case num.str => exact hba.elim
  case str.num => exact hab.elim
  case str.str x y =>
    exact congrArg Val.str (String.ext (charListLe_antisymm hab hba))

/-- Is the cell a missing value? (`Series.isnull`) -/
def isNullCell : Cell → Bool
  | none => true
  | some _ => false

/-- Is the cell a string? -/
def isStrCell : Cell → Bool
  | some (.str _) => true
  | _ => false

/-- Is the cell an integral number? -/
def isIntCell : Cell → Bool
  | some (.num q) => q.den == 1
  | _ => false

/-- The non-null values of a column, in order. -/
def nonNullVals (cells : List Cell) : List Val :=
  cells.filterMap id

/-- The numeric values of a column, in order. -/
def numVals (cells : List Cell) : List ℚ :=
  cells.filterMap fun c =>
    match c with
    | some (.num q) => some q
    | _ => none

/-- The pandas dtype of a column as `pd.read_csv` derives it from the
cells: any string makes it `object`; otherwise any null or non-integral
number makes it `float64`; otherwise `int64`. -/
inductive Dtype where
  | int64
  | float64
  | obj
deriving DecidableEq

/-- Derived dtype of a list of cells. -/
def dtypeOf (cells : List Cell) : Dtype :=
  if cells.any isStrCell then .obj
  else if cells.any fun c => isNullCell c || !isIntCell c then .float64
  else .int64

/-- `Series.fillna v`: replace every null cell by `v`. -/
def fillWith (v : Val) : Cell → Cell
  | none => some v
  | some w => some w

/-- `Series.median` (library semantics): the middle element of the
ascending sort of the non-null numeric values, or the midpoint of the two
middle elements for an even count; `none` when there is no value
(pandas returns `NaN`). -/
def medianQ (cells : List Cell) : Option ℚ :=
  let xs := (numVals cells).insertionSort (· ≤ ·)
  if xs.length = 0 then none
  else if xs.length % 2 = 1 then some (xs.getD (xs.length / 2) 0)
  else some ((xs.getD (xs.length / 2 - 1) 0 + xs.getD (xs.length / 2) 0) / 2)

/-- The distinct non-null values of a column in ascending order
(`Series.mode`s and `pd.get_dummies`s value ordering). -/
def sortedDistinct (xs : List Val) : List Val :=
  xs.dedup.insertionSort (· ≤ ·)

/-- `Series.mode` (library semantics): the distinct non-null values of
maximal frequency, in ascending order. -/
def modeList (cells : List Cell) : List Val :=
  let xs := nonNullVals cells
  (sortedDistinct xs).filter fun v =>
    decide (∀ w ∈ sortedDistinct xs, xs.count w ≤ xs.count v)

/-- `Series.mode()[0]`: `none` models the `KeyError` raised by indexing an
empty mode series. -/
def modeZero (cells : List Cell) : Option Val :=
  (modeList cells).head?

/-- First column with the given name (`df[name]`); `none` models a
`KeyError`. -/
def Table.getCol? (t : Table) (name : String) : Option Column :=
  t.find? fun c => c.name == name

/-- Replace the cells of the first column with the given name
(`df[name] = series`). -/
def Table.setCol : Table → String → List Cell → Table
  | [], _, _ => []
  | c :: cs, name, cells =>
    if c.name == name then ⟨c.name, cells⟩ :: cs
    else c :: Table.setCol cs name cells

/-- Look a column up, transform its cells, store the result back.
A missing column is a `KeyError`, an uncaught exception in the source. -/
def applyAt (t : Table) (name : String)
    (f : List Cell → Except String (List Cell)) : Except String Table :=
  match t.getCol? name with
  | none => .error ("KeyError: " ++ name)
  | some c =>
    match f c.cells with
    | .error e => .error e
    | .ok cs => .ok (t.setCol name cs)

/-- Apply a per-column transformation to each named column in turn,
modelling the `for column in [...]` loops of the source. -/
def applyCols (f : List Cell → Except String (List Cell)) :
    List String → Table → Except String Table
  | [], t => .ok t
  | n :: ns, t =>
    match applyAt t n f with
    | .error e => .error e
    | .ok t' => applyCols f ns t'

/-- The numeric columns of the source (lines 39 and 66). -/
def numericCols : List String := ["Age", "Salary", "Experience"]

/-- The categorical columns in the order of the imputation loop
(line 46). -/
def catImputeCols : List String := ["Department", "Gender", "Attrition", "Education"]

/-- The categorical columns in the order of the encoding call
(line 82). -/
def encodeCols : List String := ["Department", "Attrition", "Education", "Gender"]

/-- All columns subject to imputation. -/
def imputedCols : List String := numericCols ++ catImputeCols

/-- The eight expected columns. -/
def expectedCols : List String := imputedCols ++ ["EmployeeID"]

/-- One numeric column of the imputation stage (lines 40-43): if the
column has a null, fill every null with the median.  `Series.median` on an
`object` column raises a `TypeError`; on an all-null numeric column it
returns `NaN` and the fill is a no-op. -/
def imputeNumericCells (cells : List Cell) : Except String (List Cell) :=
  if cells.any isNullCell then
    if dtypeOf cells = .obj then
      .error "TypeError: could not convert string to float"
    else
      match medianQ cells with
      | none => .ok cells
      | some m => .ok (cells.map (fillWith (.num m)))
  else .ok cells

/-- One categorical column of the imputation stage (lines 47-50): if the
column has a null, fill every null with `mode()[0]`; on an all-null column
the mode series is empty and indexing it raises a `KeyError`. -/
def imputeCatCells (cells : List Cell) : Except String (List Cell) :=
  if cells.any isNullCell then
    match modeZero cells with
    | none => .error "KeyError: 0"
    | some m => .ok (cells.map (fillWith m))
  else .ok cells

/-- The imputation stage (lines 39-51): numeric loop, then categorical
loop. -/
def imputeStage (t : Table) : Except String Table :=
  match applyCols imputeNumericCells numericCols t with
  | .error e => .error e
  | .ok t' => applyCols imputeCatCells catImputeCols t'

/-- Truncation toward zero, the semantics of `astype(int)` on a float. -/
def truncQ (q : ℚ) : ℤ := q.num.tdiv q.den

/-- `astype(int)` applied to one cell of a `float64` column. -/
def truncCell : Cell → Cell
  | some (.num q) => some (.num ((truncQ q : ℤ) : ℚ))
  | c => c

/-- One numeric column of the retyping stage (lines 66-69):
`astype(int)` is applied only when the dtype is `float64`; it raises a
`ValueError` if a null is present, otherwise it truncates toward zero. -/
def retypeNumericCells (cells : List Cell) : Except String (List Cell) :=
  if dtypeOf cells = .float64 then
    if cells.any isNullCell then
      .error "ValueError: cannot convert non-finite values to integer"
    else .ok (cells.map truncCell)
  else .ok cells

/-- Rendering of a numeric value as text, used by `astype(str)` and by the
`get_dummies` column names.  The exact float formatting of pandas is
abstracted; only which cells are text matters to the spec. -/
def numRepr (q : ℚ) : String :=
  if q.den = 1 then toString q.num
  else toString q.num ++ "/" ++ toString q.den

/-- Text rendering of a value. -/
def valRepr : Val → String
  | .num q => numRepr q
  | .str s => s

/-- `astype(str)` applied to one cell: numbers are rendered as text and a
null becomes the literal string "nan". -/
def strCell : Cell → Cell
  | none => some (.str "nan")
  | some (.num q) => some (.str (numRepr q))
  | some (.str s) => some (.str s)

/-- The `EmployeeID` conversion (lines 72-73): `astype(str)` is applied
only when the dtype is not `object`. -/
def retypeIdCells (cells : List Cell) : List Cell :=
  if dtypeOf cells = .obj then cells else cells.map strCell

/-- The retyping stage (lines 66-74): numeric loop, then `EmployeeID`. -/
def retypeStage (t : Table) : Except String Table :=
  match applyCols retypeNumericCells numericCols t with
  | .error e => .error e
  | .ok t' => applyAt t' "EmployeeID" fun cells => .ok (retypeIdCells cells)

/-- The indicator column of one category value: 1 where the cell equals
the value, else 0 (`get_dummies` places 0 also at null cells). -/
def indicatorCells (cells : List Cell) (v : Val) : List Cell :=
  cells.map fun c => some (.num (if c = some v then 1 else 0))

/-- The dummy columns of one categorical column under `drop_first=True`:
one indicator per distinct observed value except the smallest, named by
the column name, an underscore and the value. -/
def dummyCols (c : Column) : List Column :=
  ((sortedDistinct (nonNullVals c.cells)).drop 1).map fun v =>
    ⟨c.name ++ "_" ++ valRepr v, indicatorCells c.cells v⟩

/-- `pd.get_dummies(df, columns=cols, drop_first=True)`: the encoded
columns are removed, the remaining columns keep their order, and the
dummy columns are appended grouped by source column in the order of
`cols`.  A name in `cols` missing from the table raises a `KeyError`. -/
def getDummies (t : Table) (cols : List String) : Except String Table :=
  if cols.all fun n => (t.getCol? n).isSome then
    .ok ((t.filter fun c => !cols.contains c.name) ++
      (cols.flatMap fun n =>
        match t.getCol? n with
        | some c => dummyCols c
        | none => []))
  else .error "KeyError: encoded columns missing"

/-- The encoding stage (lines 82-84). -/
def encodeStage (t : Table) : Except String Table :=
  getDummies t encodeCols

/-- The observable outcome of `pd.read_csv` (an external collaborator):
a parsed table, a `FileNotFoundError`, or any other reading exception. -/
inductive LoadResult where
  | ok (df : Table)
  | notFound
  | readError (msg : String)

/-- The observable outcome of `clean_hr_data`: a returned table, a
returned `None`, or an uncaught exception propagated to the caller. -/
inductive PipeResult where
  | table (t : Table)
  | absent
  | exn (msg : String)
deriving DecidableEq

/-- `clean_hr_data` (lines 4-93): the two `except` branches return `None`;
otherwise the three transformation stages run on a copy of the input, and
any stage error is an uncaught exception. -/
def clean_hr_data : LoadResult → PipeResult
  | .notFound => .absent
  | .readError _ => .absent
  | .ok df =>
    match imputeStage df with
    | .error e => .exn e
    | .ok t1 =>
      match retypeStage t1 with
      | .error e => .exn e
      | .ok t2 =>
        match encodeStage t2 with
        | .error e => .exn e
        | .ok t3 => .table t3

/-- Did the pipeline return a table? -/
def isTable : PipeResult → Bool
  | .table _ => true
  | _ => false

/-- Did the pipeline raise an uncaught exception? -/
def isExn : PipeResult → Bool
  | .exn _ => true
  | _ => false

/-- The returned table, defaulting to the empty table. -/
def resTable : PipeResult → Table
  | .table t => t
  | _ => []

/-- Did a stage succeed? -/
def exOk : Except String Table → Bool
  | .ok _ => true
  | .error _ => false

/-- The table of a successful stage, defaulting to the empty table. -/
def okTable : Except String Table → Table
  | .ok t => t
  | .error _ => []

/-- Is the named column present? -/
def hasColB (t : Table) (name : String) : Bool :=
  (t.getCol? name).isSome

/-- The cells of the first column with the given name (empty when the
column is missing). -/
def colCells (t : Table) (name : String) : List Cell :=
  match t.getCol? name with
  | some c => c.cells
  | none => []

/-! ### Basic lemmas about column access and update -/

theorem setCol_map_name (t : Table) (n : String) (cs : List Cell) :
    (Table.setCol t n cs).map Column.name = t.map Column.name := by
  induction t with
  | nil => rfl
  | cons c t ih =>
    simp only [Table.setCol]
    split
    · simp
    · simpa using ih

theorem getCol?_cons (c : Column) (t : Table) (n : String) :
    Table.getCol? (c :: t) n =
      cond (c.name == n) (some c) (Table.getCol? t n) := by
  rw [Table.getCol?, List.find?_cons]
  cases c.name == n <;> rfl


theorem getCol?_setCol_ne (t : Table) {m n : String} (h : m ≠ n)
    (cs : List Cell) : (Table.setCol t n cs).getCol? m = t.getCol? m := by
  induction t with
  | nil => rfl
  | cons c t ih =>
    simp only [Table.setCol]
    by_cases hc : (c.name == n) = true
    · rw [if_pos hc, getCol?_cons, getCol?_cons]
      have hcm : (c.name == m) = false := by
        rw [beq_eq_false_iff_ne]
        exact fun hm => h (hm ▸ eq_of_beq hc)
      rw [hcm]
      rfl
    · rw [if_neg hc, getCol?_cons, getCol?_cons]
      cases hm : (c.name == m)
      · simpa using ih
      · rfl

theorem getCol?_setCol_self {t : Table} {n : String} {c : Column}
    (h : t.getCol? n = some c) (cs : List Cell) :
    (Table.setCol t n cs).getCol? n = some ⟨c.name, cs⟩ := by
  induction t with
  | nil => simp [Table.getCol?] at h
  | cons d t ih =>
    rw [getCol?_cons] at h
    simp only [Table.setCol]
    by_cases hd : (d.name == n) = true
    · rw [hd] at h
      simp only [cond_true] at h
      obtain rfl := Option.some.inj h
      rw [if_pos hd, getCol?_cons]
      simp [hd]
    · have hd' : (d.name == n) = false := by simpa using hd
      rw [hd'] at h
      simp only [cond_false] at h
      rw [if_neg hd, getCol?_cons, hd']
      exact ih h

theorem hasColB_eq_any (t : Table) (n : String) :
    hasColB t n = t.any fun c => c.name == n := by
  induction t with
  | nil => rfl
  | cons c t ih =>
    rw [hasColB, getCol?_cons, List.any_cons]
    cases hm : (c.name == n)
    · simp only [cond_false, Bool.false_or]
      exact ih
    · rfl

theorem any_name_eq (t : Table) (n : String) :
    (t.any fun c => c.name == n) =
      (t.map Column.name).any fun s => s == n := by
  induction t with
  | nil => rfl
  | cons c t ih => simp only [List.any_cons, List.map_cons, ih]

theorem hasColB_of_names {t t' : Table} (n : String)
    (h : t'.map Column.name = t.map Column.name) :
    hasColB t' n = hasColB t n := by
  rw [hasColB_eq_any, hasColB_eq_any, any_name_eq, any_name_eq, h]

/-! ### Lemmas about `applyAt` and `applyCols` -/

theorem applyAt_ok {t t' : Table} {n : String}
    {f : List Cell → Except String (List Cell)}
    (h : applyAt t n f = .ok t') :
    ∃ c cs, t.getCol? n = some c ∧ f c.cells = .ok cs ∧
      t' = t.setCol n cs := by
  cases hg : t.getCol? n with
  | none =>
    simp only [applyAt, hg] at h
    exact absurd h (by simp)
  | some c =>
    simp only [applyAt, hg] at h
    cases hf : f c.cells with
    | error e =>
      simp only [hf] at h
      exact absurd h (by simp)
    | ok cs =>
      simp only [hf, Except.ok.injEq] at h
      exact ⟨c, cs, rfl, hf, h.symm⟩

theorem applyAt_names {t t' : Table} {n : String}
    {f : List Cell → Except String (List Cell)}
    (h : applyAt t n f = .ok t') :
    t'.map Column.name = t.map Column.name := by
  obtain ⟨c, cs, _, _, rfl⟩ := applyAt_ok h
  exact setCol_map_name t n cs

theorem applyCols_step {f : List Cell → Except String (List Cell)}
    {m : String} {ms : List String} {t : Table} {r : Except String Table}
    (h : applyCols f (m :: ms) t = r) :
    ∃ t1, applyAt t m f = .ok t1 ∧ applyCols f ms t1 = r ∨
      (∃ e, applyAt t m f = .error e ∧ r = .error e) := by
  cases ha : applyAt t m f with
  | error e =>
    simp only [applyCols, ha] at h
    exact ⟨t, Or.inr ⟨e, rfl, h.symm⟩⟩
  | ok t1 =>
    simp only [applyCols, ha] at h
    exact ⟨t1, Or.inl ⟨rfl, h⟩⟩

theorem applyCols_ok_step {f : List Cell → Except String (List Cell)}
    {m : String} {ms : List String} {t t' : Table}
    (h : applyCols f (m :: ms) t = .ok t') :
    ∃ t1, applyAt t m f = .ok t1 ∧ applyCols f ms t1 = .ok t' := by
  obtain ⟨t1, h1 | ⟨e, _, he⟩⟩ := applyCols_step h
  · exact ⟨t1, h1⟩
  · exact absurd he (by simp)

theorem applyCols_names {f : List Cell → Except String (List Cell)} :
    ∀ {ns : List String} {t t' : Table}, applyCols f ns t = .ok t' →
      t'.map Column.name = t.map Column.name := by
  intro ns
  induction ns with
  | nil =>
    intro t t' h
    cases h
    rfl
  | cons m ms ih =>
    intro t t' h
    obtain ⟨t1, ha, hrest⟩ := applyCols_ok_step h
    exact (ih hrest).trans (applyAt_names ha)

theorem applyCols_untouched {f : List Cell → Except String (List Cell)}
    {n : String} :
    ∀ {ns : List String} {t t' : Table}, n ∉ ns →
      applyCols f ns t = .ok t' → t'.getCol? n = t.getCol? n := by
  intro ns
  induction ns with
  | nil =>
    intro t t' _ h
    cases h
    rfl
  | cons m ms ih =>
    intro t t' hn h
    obtain ⟨t1, ha, hrest⟩ := applyCols_ok_step h
    obtain ⟨c, cs, _, _, rfl⟩ := applyAt_ok ha
    rw [ih (fun hm => hn (List.mem_cons_of_mem _ hm)) hrest]
    refine getCol?_setCol_ne t (fun he => hn ?_) cs
    rw [he]
    exact List.mem_cons_self m ms

theorem applyCols_processed {f : List Cell → Except String (List Cell)}
    {n : String} :
    ∀ {ns : List String} {t t' : Table}, ns.Nodup → n ∈ ns →
      ∀ {c : Column}, t.getCol? n = some c →
      applyCols f ns t = .ok t' →
      ∃ cs, f c.cells = .ok cs ∧ t'.getCol? n = some ⟨c.name, cs⟩ := by
  intro ns
  induction ns with
  | nil =>
    intro t t' _ hmem
    exact absurd hmem (by simp)
  | cons m ms ih =>
    intro t t' hnd hmem c hget h
    obtain ⟨t1, ha, hrest⟩ := applyCols_ok_step h
    rcases List.mem_cons.mp hmem with rfl | hmem'
    · obtain ⟨d, cs, hgd, hfd, rfl⟩ := applyAt_ok ha
      rw [hget] at hgd
      obtain rfl := Option.some.inj hgd
      refine ⟨cs, hfd, ?_⟩
      rw [applyCols_untouched (List.Nodup.not_mem hnd) hrest]
      exact getCol?_setCol_self hget cs
    · obtain ⟨d, cs, hgd, hfd, rfl⟩ := applyAt_ok ha
      have hne : n ≠ m := fun he => (List.Nodup.not_mem hnd) (he ▸ hmem')
      have hget1 : (Table.setCol t m cs).getCol? n = some c := by
        rw [getCol?_setCol_ne t hne cs]
        exact hget
      exact ih (List.Nodup.of_cons hnd) hmem' hget1 hrest

theorem applyCols_present {f : List Cell → Except String (List Cell)} :
    ∀ {ns : List String} {t t' : Table}, applyCols f ns t = .ok t' →
      ∀ n ∈ ns, hasColB t n = true := by
  intro ns
  induction ns with
  | nil =>
    intro t t' _ n hn
    exact absurd hn (by simp)
  | cons m ms ih =>
    intro t t' h n hn
    obtain ⟨t1, ha, hrest⟩ := applyCols_ok_step h
    rcases List.mem_cons.mp hn with rfl | hn'
    · obtain ⟨c, cs, hg, _, _⟩ := applyAt_ok ha
      simp [hasColB, hg]
    · have hp := ih hrest n hn'
      rwa [hasColB_of_names n (applyAt_names ha)] at hp

theorem applyCols_ok {f : List Cell → Except String (List Cell)} :
    ∀ {ns : List String} {t : Table}, ns.Nodup →
      (∀ n ∈ ns, ∃ c, t.getCol? n = some c ∧ ∃ cs, f c.cells = .ok cs) →
      ∃ t', applyCols f ns t = .ok t' := by
  intro ns
  induction ns with
  | nil =>
    intro t _ _
    exact ⟨t, rfl⟩
  | cons m ms ih =>
    intro t hnd h
    obtain ⟨c, hg, cs, hf⟩ := h m (List.mem_cons_self m ms)
    have ha : applyAt t m f = .ok (t.setCol m cs) := by
      simp only [applyAt, hg, hf]
    have h' : ∀ n ∈ ms, ∃ c, (Table.setCol t m cs).getCol? n = some c ∧
        ∃ cs', f c.cells = .ok cs' := by
      intro n hn
      have hne : n ≠ m := fun he => (List.Nodup.not_mem hnd) (he ▸ hn)
      rw [getCol?_setCol_ne t hne cs]
      exact h n (List.mem_cons_of_mem _ hn)
    obtain ⟨t', ht'⟩ := ih (List.Nodup.of_cons hnd) h'
    refine ⟨t', ?_⟩
    simp only [applyCols, ha, ht']

/-! ### Facts about cells, dtypes and the per-column operations -/

/-- Is the cell a non-null number? -/
def isNumCell : Cell → Bool
  | some (.num _) => true
  | _ => false

theorem dtypeOf_obj_iff (cells : List Cell) :
    dtypeOf cells = .obj ↔ cells.any isStrCell = true := by
  unfold dtypeOf
  by_cases h : cells.any isStrCell = true
  · simp [h]
  · rw [if_neg h]
    by_cases h2 : (cells.any fun c => isNullCell c || !isIntCell c) = true
    · rw [if_pos h2]
      exact ⟨fun hx => Dtype.noConfusion hx, fun hx => absurd hx h⟩
    · rw [if_neg h2]
      exact ⟨fun hx => Dtype.noConfusion hx, fun hx => absurd hx h⟩

theorem numVals_nil_iff (cells : List Cell) :
    numVals cells = [] ↔ ∀ c ∈ cells, isNumCell c = false := by
  unfold numVals
  rw [List.filterMap_eq_nil_iff]
  constructor
  · intro h c hc
    have hh := h c hc
    cases c with
    | none => rfl
    | some v =>
      cases v with
      | num q => exact absurd hh (by simp)
      | str s => rfl
  · intro h c hc
    have hh := h c hc
    cases c with
    | none => rfl
    | some v =>
      cases v with
      | num q => exact absurd hh (by simp [isNumCell])
      | str s => rfl

theorem nonNullVals_nil_iff (cells : List Cell) :
    nonNullVals cells = [] ↔ cells.all isNullCell = true := by
  unfold nonNullVals
  rw [List.filterMap_eq_nil_iff, List.all_eq_true]
  constructor
  · intro h c hc
    have hh := h c hc
    cases c with
    | none => rfl
    | some v => exact absurd hh (by simp)
  · intro h c hc
    have hh := h c hc
    cases c with
    | none => rfl
    | some v => exact absurd hh (by simp [isNullCell])

theorem medianQ_eq_none_iff (cells : List Cell) :
    medianQ cells = none ↔ numVals cells = [] := by
  unfold medianQ
  by_cases h : ((numVals cells).insertionSort (· ≤ ·)).length = 0
  · rw [if_pos h]
    rw [List.length_insertionSort, List.length_eq_zero] at h
    simp [h]
  · rw [if_neg h]
    rw [List.length_insertionSort, List.length_eq_zero] at h
    constructor
    · intro hx
      split at hx <;> exact Option.noConfusion hx
    · intro hx
      exact absurd hx h

theorem fillWith_not_null (v : Val) (c : Cell) :
    isNullCell (fillWith v c) = false := by
  cases c <;> rfl

theorem map_fillWith_nullfree (v : Val) (cells : List Cell) :
    (cells.map (fillWith v)).any isNullCell = false := by
  rw [List.any_eq_false]
  intro c hc
  obtain ⟨d, _, rfl⟩ := List.mem_map.mp hc
  simp [fillWith_not_null]

theorem allnull_any_str (cells : List Cell)
    (h : cells.all isNullCell = true) : cells.any isStrCell = false := by
  rw [List.any_eq_false]
  intro c hc
  have := List.all_eq_true.mp h c hc
  cases c with
  | none => exact fun hx => Bool.noConfusion hx
  | some v => simp [isNullCell] at this

theorem allnull_numVals (cells : List Cell)
    (h : cells.all isNullCell = true) : numVals cells = [] := by
  rw [numVals_nil_iff]
  intro c hc
  have := List.all_eq_true.mp h c hc
  cases c with
  | none => rfl
  | some v => simp [isNullCell] at this

theorem allnull_any_null (cells : List Cell) (hne : cells ≠ [])
    (h : cells.all isNullCell = true) : cells.any isNullCell = true := by
  cases cells with
  | nil => exact absurd rfl hne
  | cons c cs =>
    rw [List.any_cons]
    rw [List.all_cons, Bool.and_eq_true] at h
    simp [h.1]

/-- On an all-null nonempty column the numeric imputation is a no-op:
`median()` is `NaN` and `fillna(NaN)` changes nothing. -/
theorem imputeNumericCells_allnull {cells : List Cell} (hne : cells ≠ [])
    (h : cells.all isNullCell = true) :
    imputeNumericCells cells = .ok cells := by
  unfold imputeNumericCells
  rw [if_pos (allnull_any_null cells hne h)]
  rw [if_neg (fun ho => by
    rw [dtypeOf_obj_iff] at ho
    rw [allnull_any_str cells h] at ho
    exact Bool.false_ne_true ho)]
  rw [(medianQ_eq_none_iff cells).mpr (allnull_numVals cells h)]

/-- A null-free column is untouched by numeric imputation. -/
theorem imputeNumericCells_nullfree {cells : List Cell}
    (h : cells.any isNullCell = false) :
    imputeNumericCells cells = .ok cells := by
  unfold imputeNumericCells
  rw [if_neg (by simp [h])]

/-- A null-free column is untouched by categorical imputation. -/
theorem imputeCatCells_nullfree {cells : List Cell}
    (h : cells.any isNullCell = false) :
    imputeCatCells cells = .ok cells := by
  unfold imputeCatCells
  rw [if_neg (by simp [h])]

/-- On an all-null nonempty column the categorical imputation raises:
the mode series is empty and `mode()[0]` is a `KeyError`. -/
theorem imputeCatCells_allnull {cells : List Cell} (hne : cells ≠ [])
    (h : cells.all isNullCell = true) :
    imputeCatCells cells = .error "KeyError: 0" := by
  unfold imputeCatCells
  rw [if_pos (allnull_any_null cells hne h)]
  have hm : modeZero cells = none := by
    unfold modeZero modeList
    rw [(nonNullVals_nil_iff cells).mpr h]
    rfl
  rw [hm]

/-- On an all-null nonempty column the retyping raises: dtype is
`float64` and `astype(int)` rejects the nulls. -/
theorem retypeNumericCells_allnull {cells : List Cell} (hne : cells ≠ [])
    (h : cells.all isNullCell = true) :
    retypeNumericCells cells =
      .error "ValueError: cannot convert non-finite values to integer" := by
  unfold retypeNumericCells
  have hd : dtypeOf cells = .float64 := by
    unfold dtypeOf
    rw [allnull_any_str cells h]
    rw [if_neg (by simp)]
    rw [if_pos ?_]
    rw [List.any_eq_true]
    cases cells with
    | nil => exact absurd rfl hne
    | cons c cs =>
      refine ⟨c, List.mem_cons_self c cs, ?_⟩
      rw [List.all_cons, Bool.and_eq_true] at h
      simp [h.1]
  rw [if_pos hd, if_pos (allnull_any_null cells hne h)]

theorem truncCell_of_int {c : Cell} (h : isIntCell c = true) :
    truncCell c = c := by
  cases c with
  | none => rfl
  | some v =>
    cases v with
    | str s => rfl
    | num q =>
      have hq : q.den = 1 := by simpa [isIntCell] using h
      simp only [truncCell, truncQ, hq, Nat.cast_one, Int.tdiv_one]
      rw [(Rat.den_eq_one_iff q).mp hq]

theorem truncCell_not_null {c : Cell} (h : isNullCell c = false) :
    isNullCell (truncCell c) = false := by
  cases c with
  | none => exact absurd h (by simp [isNullCell])
  | some v => cases v <;> rfl

/-- A column of non-null numbers survives retyping as its elementwise
truncation (an identity on integral cells). -/
theorem retypeNumericCells_clean {cells : List Cell}
    (h : cells.all isNumCell = true) :
    retypeNumericCells cells = .ok (cells.map truncCell) := by
  have hstr : cells.any isStrCell = false := by
    rw [List.any_eq_false]
    intro c hc
    have hh := List.all_eq_true.mp h c hc
    cases c with
    | none => exact fun hx => Bool.noConfusion hx
    | some v =>
      cases v with
      | num q => exact fun hx => Bool.noConfusion hx
      | str s => exact absurd hh (by simp [isNumCell])
  have hnull : cells.any isNullCell = false := by
    rw [List.any_eq_false]
    intro c hc
    have hh := List.all_eq_true.mp h c hc
    cases c with
    | none => exact absurd hh (by simp [isNumCell])
    | some v => exact fun hx => Bool.noConfusion hx
  unfold retypeNumericCells
  by_cases hd : dtypeOf cells = Dtype.float64
  · rw [if_pos hd, if_neg (by simp [hnull])]
  · rw [if_neg hd]
    have hint : cells.all isIntCell = true := by
      rw [List.all_eq_true]
      intro c hc
      by_contra hcon
      have hfl : dtypeOf cells = Dtype.float64 := by
        unfold dtypeOf
        rw [hstr]
        rw [if_neg (by simp)]
        rw [if_pos ?_]
        rw [List.any_eq_true]
        exact ⟨c, hc, by simp [Bool.not_eq_true] at hcon; simp [hcon]⟩
      exact hd hfl
    have hh : ∀ c ∈ cells, truncCell c = id c := fun c hc =>
      truncCell_of_int (List.all_eq_true.mp hint c hc)
    rw [List.map_congr_left hh, List.map_id]

/-- A numeric column containing text has `object` dtype, so the retyping
loop skips it without failing. -/
theorem retypeNumericCells_text {cells : List Cell}
    (h : cells.any isStrCell = true) :
    retypeNumericCells cells = .ok cells := by
  unfold retypeNumericCells
  rw [if_neg ?_]
  intro hd
  rw [show dtypeOf cells = Dtype.obj from (dtypeOf_obj_iff cells).mpr h] at hd
  exact Dtype.noConfusion hd

/-- The retyping of a null-free column succeeds and stays null-free. -/
theorem retypeNumericCells_nullfree {cells : List Cell}
    (h : cells.any isNullCell = false) :
    ∃ cs, retypeNumericCells cells = .ok cs ∧ cs.any isNullCell = false ∧
      cs.length = cells.length := by
  unfold retypeNumericCells
  by_cases hd : dtypeOf cells = Dtype.float64
  · refine ⟨cells.map truncCell, ?_, ?_, List.length_map cells truncCell⟩
    · rw [if_pos hd, if_neg (by simp [h])]
    · rw [List.any_eq_false]
      intro c hc
      obtain ⟨d, hd2, rfl⟩ := List.mem_map.mp hc
      have hdn : isNullCell d = false :=
        Bool.eq_false_iff.mpr (List.any_eq_false.mp h d hd2)
      simp [truncCell_not_null hdn]
  · exact ⟨cells, by rw [if_neg hd], h, rfl⟩

theorem retypeNumericCells_length {cells cs : List Cell}
    (h : retypeNumericCells cells = .ok cs) : cs.length = cells.length := by
  unfold retypeNumericCells at h
  by_cases hd : dtypeOf cells = Dtype.float64
  · rw [if_pos hd] at h
    by_cases hn : (cells.any isNullCell) = true
    · rw [if_pos hn] at h
      exact absurd h (by simp)
    · rw [if_neg hn] at h
      rw [← Except.ok.inj h, List.length_map]
  · rw [if_neg hd] at h
    rw [← Except.ok.inj h]

theorem imputeNumericCells_length {cells cs : List Cell}
    (h : imputeNumericCells cells = .ok cs) : cs.length = cells.length := by
  unfold imputeNumericCells at h
  by_cases hn : (cells.any isNullCell) = true
  · rw [if_pos hn] at h
    by_cases hd : dtypeOf cells = Dtype.obj
    · rw [if_pos hd] at h
      exact absurd h (by simp)
    · rw [if_neg hd] at h
      cases hm : medianQ cells with
      | none =>
        simp only [hm] at h
        rw [← Except.ok.inj h]
      | some m =>
        simp only [hm] at h
        rw [← Except.ok.inj h, List.length_map]
  · rw [if_neg hn] at h
    rw [← Except.ok.inj h]

theorem imputeCatCells_length {cells cs : List Cell}
    (h : imputeCatCells cells = .ok cs) : cs.length = cells.length := by
  unfold imputeCatCells at h
  by_cases hn : (cells.any isNullCell) = true
  · rw [if_pos hn] at h
    cases hm : modeZero cells with
    | none =>
      simp only [hm] at h
      exact absurd h (by simp)
    | some m =>
      simp only [hm] at h
      rw [← Except.ok.inj h, List.length_map]
  · rw [if_neg hn] at h
    rw [← Except.ok.inj h]

theorem strCell_is_str (c : Cell) : isStrCell (strCell c) = true := by
  cases c with
  | none => rfl
  | some v => cases v <;> rfl

theorem retypeIdCells_length (cells : List Cell) :
    (retypeIdCells cells).length = cells.length := by
  unfold retypeIdCells
  by_cases hd : dtypeOf cells = Dtype.obj
  · rw [if_pos hd]
  · rw [if_neg hd, List.length_map]

/-- After the `EmployeeID` conversion every cell is text, provided the
column did not mix text with non-text cells. -/
theorem retypeIdCells_text {cells : List Cell}
    (h : cells.any isStrCell = false ∨ cells.all isStrCell = true) :
    (retypeIdCells cells).all isStrCell = true := by
  unfold retypeIdCells
  rcases h with h | h
  · rw [if_neg (fun hd => by
      rw [dtypeOf_obj_iff] at hd
      rw [h] at hd
      exact Bool.false_ne_true hd)]
    rw [List.all_eq_true]
    intro c hc
    obtain ⟨d, _, rfl⟩ := List.mem_map.mp hc
    exact strCell_is_str d
  · split <;> first
      | exact h
      | · rw [List.all_eq_true]
          intro c hc
          obtain ⟨d, _, rfl⟩ := List.mem_map.mp hc
          exact strCell_is_str d

/-! ### Stage decomposition -/

theorem imputeStage_split {t t' : Table} (h : imputeStage t = .ok t') :
    ∃ ta, applyCols imputeNumericCells numericCols t = .ok ta ∧
      applyCols imputeCatCells catImputeCols ta = .ok t' := by
  cases ha : applyCols imputeNumericCells numericCols t with
  | error e =>
    simp only [imputeStage, ha] at h
    exact absurd h (by simp)
  | ok ta =>
    simp only [imputeStage, ha] at h
    exact ⟨ta, rfl, h⟩

theorem retypeStage_split {t t' : Table} (h : retypeStage t = .ok t') :
    ∃ tb, applyCols retypeNumericCells numericCols t = .ok tb ∧
      applyAt tb "EmployeeID" (fun cells => .ok (retypeIdCells cells)) =
        .ok t' := by
  cases ha : applyCols retypeNumericCells numericCols t with
  | error e =>
    simp only [retypeStage, ha] at h
    exact absurd h (by simp)
  | ok tb =>
    simp only [retypeStage, ha] at h
    exact ⟨tb, rfl, h⟩

theorem clean_table_split {df t' : Table}
    (h : clean_hr_data (.ok df) = .table t') :
    ∃ t1 t2, imputeStage df = .ok t1 ∧ retypeStage t1 = .ok t2 ∧
      encodeStage t2 = .ok t' := by
  cases h1 : imputeStage df with
  | error e =>
    simp only [clean_hr_data, h1] at h
    exact absurd h (by simp)
  | ok t1 =>
    simp only [clean_hr_data, h1] at h
    cases h2 : retypeStage t1 with
    | error e =>
      simp only [h2] at h
      exact absurd h (by simp)
    | ok t2 =>
      simp only [h2] at h
      cases h3 : encodeStage t2 with
      | error e =>
        simp only [h3] at h
        exact absurd h (by simp)
      | ok t3 =>
        simp only [h3, PipeResult.table.injEq] at h
        exact ⟨t1, t2, rfl, h2, h ▸ h3⟩

theorem imputeStage_names {t t' : Table} (h : imputeStage t = .ok t') :
    t'.map Column.name = t.map Column.name := by
  obtain ⟨ta, h1, h2⟩ := imputeStage_split h
  exact (applyCols_names h2).trans (applyCols_names h1)

theorem retypeStage_names {t t' : Table} (h : retypeStage t = .ok t') :
    t'.map Column.name = t.map Column.name := by
  obtain ⟨tb, h1, h2⟩ := retypeStage_split h
  exact (applyAt_names h2).trans (applyCols_names h1)

/-! ### More helpers for the claim theorems -/

theorem getCol?_of_hasColB {t : Table} {n : String}
    (h : hasColB t n = true) :
    ∃ c, t.getCol? n = some c ∧ colCells t n = c.cells := by
  unfold hasColB at h
  cases hg : t.getCol? n with
  | none =>
    rw [hg] at h
    exact absurd h (by simp)
  | some c =>
    exact ⟨c, rfl, by unfold colCells; rw [hg]⟩

theorem setCol_eq_self : ∀ {t : Table} {n : String} {c : Column},
    t.getCol? n = some c → t.setCol n c.cells = t := by
  intro t
  induction t with
  | nil =>
    intro n c _
    rfl
  | cons d t ih =>
    intro n c h
    rw [getCol?_cons] at h
    simp only [Table.setCol]
    by_cases hd : (d.name == n) = true
    · rw [hd] at h
      simp only [cond_true] at h
      obtain rfl := Option.some.inj h
      rw [if_pos hd]
    · have hd' : (d.name == n) = false := by simpa using hd
      rw [hd'] at h
      simp only [cond_false] at h
      rw [if_neg hd, ih h]

theorem applyCols_id {f : List Cell → Except String (List Cell)} :
    ∀ {ns : List String} {t : Table},
      (∀ n ∈ ns, ∃ c, t.getCol? n = some c ∧ f c.cells = .ok c.cells) →
      applyCols f ns t = .ok t := by
  intro ns
  induction ns with
  | nil =>
    intro t _
    rfl
  | cons m ms ih =>
    intro t h
    obtain ⟨c, hg, hf⟩ := h m (List.mem_cons_self m ms)
    have ha : applyAt t m f = .ok t := by
      simp only [applyAt, hg, hf]
      rw [setCol_eq_self hg]
    simp only [applyCols, ha]
    exact ih fun n hn => h n (List.mem_cons_of_mem _ hn)

theorem isTable_iff (r : PipeResult) :
    isTable r = true ↔ ∃ t, r = .table t := by
  cases r with
  | table t => simp [isTable]
  | absent => simp [isTable]
  | exn m => simp [isTable]

theorem clean_ok_not_absent (df : Table) :
    clean_hr_data (.ok df) ≠ .absent := by
  intro h
  cases h1 : imputeStage df with
  | error e =>
    simp only [clean_hr_data, h1] at h
    exact PipeResult.noConfusion h
  | ok t1 =>
    simp only [clean_hr_data, h1] at h
    cases h2 : retypeStage t1 with
    | error e =>
      simp only [h2] at h
      exact PipeResult.noConfusion h
    | ok t2 =>
      simp only [h2] at h
      cases h3 : encodeStage t2 with
      | error e =>
        simp only [h3] at h
        exact PipeResult.noConfusion h
      | ok t3 =>
        simp only [h3] at h
        exact PipeResult.noConfusion h

theorem isExn_of_not_table (df : Table)
    (h : isTable (clean_hr_data (.ok df)) = false) :
    isExn (clean_hr_data (.ok df)) = true := by
  cases hr : clean_hr_data (.ok df) with
  | table t =>
    rw [hr] at h
    exact absurd h (by simp [isTable])
  | absent => exact absurd hr (clean_ok_not_absent df)
  | exn m => rfl

/-! ### Claim C9: load-failure contract -/

/-- C9: when the path does not resolve to a file (`FileNotFoundError`) or
the file cannot be parsed (any other reading exception), `clean_hr_data`
returns `None` — an absent result, not a table and not an exception
propagated to the caller. -/
theorem C9_load_failure (msg : String) :
    clean_hr_data .notFound = .absent ∧
      clean_hr_data (.readError msg) = .absent :=
  ⟨rfl, rfl⟩

/-- Witness for C9 at a concrete reading-error message. -/
theorem C9_load_failure_witness :
    clean_hr_data .notFound = .absent ∧
      clean_hr_data (.readError "ParserError") = .absent :=
  C9_load_failure "ParserError"

/-! ### Claim C8: idempotence of imputation -/

/-- C8: on a table whose seven imputed columns are present and already
null-free, the imputation stage is a no-op: both `isnull().any()` guards
fail and the table is returned unchanged. -/
theorem C8_imputation_idempotent (t : Table)
    (h : ∀ n ∈ imputedCols, hasColB t n = true ∧
      (colCells t n).any isNullCell = false) :
    imputeStage t = .ok t := by
  have hnum : applyCols imputeNumericCells numericCols t = .ok t := by
    apply applyCols_id
    intro n hn
    have hh := h n (List.mem_append.mpr (Or.inl hn))
    obtain ⟨c, hg, hcc⟩ := getCol?_of_hasColB hh.1
    refine ⟨c, hg, imputeNumericCells_nullfree ?_⟩
    rw [← hcc]
    exact hh.2
  have hcat : applyCols imputeCatCells catImputeCols t = .ok t := by
    apply applyCols_id
    intro n hn
    have hh := h n (List.mem_append.mpr (Or.inr hn))
    obtain ⟨c, hg, hcc⟩ := getCol?_of_hasColB hh.1
    refine ⟨c, hg, imputeCatCells_nullfree ?_⟩
    rw [← hcc]
    exact hh.2
  simp only [imputeStage, hnum]
  exact hcat

/-- A null-free eight-column table used as the C8 witness. -/
def dfNullFree : Table := [
  ⟨"EmployeeID", [some (.num 1), some (.num 2)]⟩,
  ⟨"Age", [some (.num 30), some (.num 25)]⟩,
  ⟨"Department", [some (.str "HR"), some (.str "IT")]⟩,
  ⟨"Attrition", [some (.str "No"), some (.str "Yes")]⟩,
  ⟨"Salary", [some (.num 50000), some (.num 60000)]⟩,
  ⟨"Experience", [some (.num 5), some (.num 2)]⟩,
  ⟨"Education", [some (.str "Bachelors"), some (.str "Masters")]⟩,
  ⟨"Gender", [some (.str "Male"), some (.str "Female")]⟩]

/-- Witness for C8: the imputation stage returns the null-free table
unchanged. -/
theorem C8_imputation_idempotent_witness :
    imputeStage dfNullFree = .ok dfNullFree :=
  C8_imputation_idempotent dfNullFree (by decide)

/-! ### Claim C3: all-null imputed column makes the pipeline fail -/

/-- C3: when some column subject to imputation is nonempty and entirely
null, the pipeline never returns a table.  An all-null categorical column
raises a `KeyError` at `mode()[0]`; an all-null numeric column survives
the no-op `fillna(NaN)` but then raises a `ValueError` at `astype(int)`,
because its dtype is `float64` and it still contains nulls. -/
theorem C3_empty_column (df : Table) (name : String)
    (hmem : name ∈ imputedCols)
    (hcol : hasColB df name = true)
    (hne : colCells df name ≠ [])
    (hall : (colCells df name).all isNullCell = true) :
    isTable (clean_hr_data (.ok df)) = false := by
  by_contra hcon
  have htab : ∃ t, clean_hr_data (.ok df) = .table t := by
    rw [← isTable_iff]
    cases hx : isTable (clean_hr_data (.ok df))
    · exact absurd hx hcon
    · rfl
  obtain ⟨tfin, htfin⟩ := htab
  obtain ⟨t1, t2, himp, hrty, henc⟩ := clean_table_split htfin
  obtain ⟨c, hg, hcc⟩ := getCol?_of_hasColB hcol
  rw [hcc] at hne hall
  obtain ⟨ta, hnumf, hcatf⟩ := imputeStage_split himp
  rcases List.mem_append.mp hmem with hnum | hcat
  · -- numeric column: the imputation is a no-op, retyping then fails
    obtain ⟨cs, hfc, hta⟩ := applyCols_processed (by decide) hnum hg hnumf
    rw [imputeNumericCells_allnull hne hall] at hfc
    obtain rfl := Except.ok.inj hfc
    have hnotcat : name ∉ catImputeCols := by
      revert hnum
      have hd : ∀ m ∈ numericCols, m ∉ catImputeCols := by decide
      exact fun hm => hd name hm
    have ht1 : t1.getCol? name = some ⟨c.name, c.cells⟩ := by
      rw [applyCols_untouched hnotcat hcatf]
      exact hta
    obtain ⟨tb, hrnumf, _⟩ := retypeStage_split hrty
    obtain ⟨cs2, hfc2, _⟩ := applyCols_processed (by decide) hnum ht1 hrnumf
    rw [retypeNumericCells_allnull hne hall] at hfc2
    exact Except.noConfusion hfc2
  · -- categorical column: mode of an empty series raises
    have hnotnum : name ∉ numericCols := by
      revert hcat
      have hd : ∀ m ∈ catImputeCols, m ∉ numericCols := by decide
      exact fun hm => hd name hm
    have hta : ta.getCol? name = some c := by
      rw [applyCols_untouched hnotnum hnumf]
      exact hg
    obtain ⟨cs, hfc, _⟩ := applyCols_processed (by decide) hcat hta hcatf
    rw [imputeCatCells_allnull hne hall] at hfc
    exact Except.noConfusion hfc

/-- A table whose `Department` column is entirely null, used as the C3
witness. -/
def dfAllNullDept : Table := [
  ⟨"EmployeeID", [some (.num 1), some (.num 2)]⟩,
  ⟨"Age", [some (.num 30), some (.num 25)]⟩,
  ⟨"Department", [none, none]⟩,
  ⟨"Attrition", [some (.str "No"), some (.str "Yes")]⟩,
  ⟨"Salary", [some (.num 50000), some (.num 60000)]⟩,
  ⟨"Experience", [some (.num 5), some (.num 2)]⟩,
  ⟨"Education", [some (.str "Bachelors"), some (.str "Masters")]⟩,
  ⟨"Gender", [some (.str "Male"), some (.str "Female")]⟩]

/-- Witness for C3: on the all-null `Department` table the pipeline does
not return a table. -/
theorem C3_empty_column_witness :
    isTable (clean_hr_data (.ok dfAllNullDept)) = false :=
  C3_empty_column dfAllNullDept "Department" (by decide) (by decide)
    (by decide) (by decide)

/-! ### Claim C10: missing expected column raises, is never absent -/

/-- C10: when the file loads but one of the eight expected columns is
missing, the pipeline raises an uncaught exception (the column lookups
and `get_dummies` raise `KeyError`) instead of returning the absent
result; the absent result arises only from reading failures, since a
loaded table always produces either a table or an exception. -/
theorem C10_missing_column (df : Table)
    (h : (expectedCols.all fun n => hasColB df n) = false) :
    isExn (clean_hr_data (.ok df)) = true ∧
      ∀ df2 : Table, clean_hr_data (.ok df2) ≠ .absent := by
  refine ⟨?_, fun df2 => clean_ok_not_absent df2⟩
  apply isExn_of_not_table
  by_contra hcon
  have htab : ∃ t, clean_hr_data (.ok df) = .table t := by
    rw [← isTable_iff]
    cases hx : isTable (clean_hr_data (.ok df))
    · exact absurd hx hcon
    · rfl
  obtain ⟨tfin, htfin⟩ := htab
  obtain ⟨t1, t2, himp, hrty, henc⟩ := clean_table_split htfin
  obtain ⟨ta, hnumf, hcatf⟩ := imputeStage_split himp
  obtain ⟨tb, hrnumf, hid⟩ := retypeStage_split hrty
  obtain ⟨n, hnmem, hnabs⟩ := List.all_eq_false.mp h
  have hnabs' : hasColB df n = false := by
    cases hx : hasColB df n
    · rfl
    · exact absurd hx hnabs
  have hpresent : hasColB df n = true := by
    have hmem8 : n ∈ numericCols ∨ n ∈ catImputeCols ∨ n = "EmployeeID" := by
      rcases List.mem_append.mp hnmem with hi | hone
      · rcases List.mem_append.mp hi with h1 | h2
        · exact Or.inl h1
        · exact Or.inr (Or.inl h2)
      · right
        right
        simpa using hone
    rcases hmem8 with h1 | h2 | h3
    · exact applyCols_present hnumf n h1
    · have := applyCols_present hcatf n h2
      rwa [hasColB_of_names n (applyCols_names hnumf)] at this
    · subst h3
      obtain ⟨c, cs, hg, _, _⟩ := applyAt_ok hid
      have hb : hasColB tb "EmployeeID" = true := by
        simp [hasColB, hg]
      rw [hasColB_of_names _ (applyCols_names hrnumf),
        hasColB_of_names _ (imputeStage_names himp)] at hb
      exact hb
  rw [hpresent] at hnabs'
  exact Bool.noConfusion hnabs'

/-- A table lacking the `Gender` column, used as the C10 witness. -/
def dfMissingGender : Table := [
  ⟨"EmployeeID", [some (.num 1)]⟩,
  ⟨"Age", [some (.num 30)]⟩,
  ⟨"Department", [some (.str "HR")]⟩,
  ⟨"Attrition", [some (.str "No")]⟩,
  ⟨"Salary", [some (.num 50000)]⟩,
  ⟨"Experience", [some (.num 5)]⟩,
  ⟨"Education", [some (.str "Bachelors")]⟩]

/-- Witness for C10: with `Gender` missing, the loaded table produces an
uncaught exception and no absent result. -/
theorem C10_missing_column_witness :
    isExn (clean_hr_data (.ok dfMissingGender)) = true :=
  (C10_missing_column dfMissingGender (by decide)).1

/-! ### Claim C1: the imputation contract -/

theorem charListLe_refl : ∀ a : List Char, charListLe a a = true
  | [] => rfl
  | a :: as => by
    simp only [charListLe, lt_irrefl, if_false]
    exact charListLe_refl as

theorem Val.leRefl (v : Val) : v ≤ v := by
  cases v with
  | num q =>
    have hq : q ≤ q := le_refl q
    exact hq
  | str s => exact charListLe_refl s.data

theorem sortedDistinct_perm_dedup (xs : List Val) :
    (sortedDistinct xs).Perm xs.dedup :=
  List.perm_insertionSort (· ≤ ·) xs.dedup

theorem sortedDistinct_mem (xs : List Val) (v : Val) :
    v ∈ sortedDistinct xs ↔ v ∈ xs := by
  rw [(sortedDistinct_perm_dedup xs).mem_iff, List.mem_dedup]

theorem sortedDistinct_nodup (xs : List Val) :
    (sortedDistinct xs).Nodup :=
  (sortedDistinct_perm_dedup xs).nodup_iff.mpr (List.nodup_dedup xs)

theorem sortedDistinct_sorted (xs : List Val) :
    List.Sorted (· ≤ ·) (sortedDistinct xs) :=
  List.sorted_insertionSort (· ≤ ·) xs.dedup

theorem sortedDistinct_ne_nil {xs : List Val} (h : xs ≠ []) :
    sortedDistinct xs ≠ [] := by
  intro hs
  cases hx : xs with
  | nil => exact absurd hx h
  | cons v vs =>
    have hv : v ∈ sortedDistinct xs := by
      rw [sortedDistinct_mem, hx]
      exact List.mem_cons_self v vs
    rw [hs] at hv
    exact absurd hv (by simp)

/-- The mode list of a column with a non-null value is nonempty: some
distinct value attains the maximal count. -/
theorem modeList_ne_nil {cells : List Cell}
    (h : nonNullVals cells ≠ []) : modeList cells ≠ [] := by
  unfold modeList
  intro hnil
  have hsd : sortedDistinct (nonNullVals cells) ≠ [] := sortedDistinct_ne_nil h
  cases harg : (sortedDistinct (nonNullVals cells)).argmax
      (fun v => (nonNullVals cells).count v) with
  | none => exact hsd (List.argmax_eq_none.mp harg)
  | some m0 =>
    have hm0mem : m0 ∈ sortedDistinct (nonNullVals cells) :=
      List.argmax_mem harg
    have hm0max : ∀ w ∈ sortedDistinct (nonNullVals cells),
        (nonNullVals cells).count w ≤ (nonNullVals cells).count m0 :=
      fun w hw => List.le_of_mem_argmax hw harg
    have hm0in : m0 ∈ (sortedDistinct (nonNullVals cells)).filter
        fun v => decide (∀ w ∈ sortedDistinct (nonNullVals cells),
          (nonNullVals cells).count w ≤ (nonNullVals cells).count v) := by
      rw [List.mem_filter]
      exact ⟨hm0mem, decide_eq_true hm0max⟩
    rw [hnil] at hm0in
    exact absurd hm0in (by simp)

/-- Median specification taken from the claim text: the value is the
middle element of an ascending arrangement of the data, or the mean of
the two middle elements for an even count. -/
def MedianSpec (xs : List ℚ) (m : ℚ) : Prop :=
  ∃ ys : List ℚ, ys.Perm xs ∧ List.Sorted (· ≤ ·) ys ∧
    ((ys.length % 2 = 1 ∧ m = ys.getD (ys.length / 2) 0) ∨
     (ys.length % 2 = 0 ∧ ys ≠ [] ∧
       m = (ys.getD (ys.length / 2 - 1) 0 + ys.getD (ys.length / 2) 0) / 2))

/-- Mode specification taken from the claim text: a value of maximal
frequency, and the least such value in the ascending order of the
distinct values. -/
def ModeSpec (xs : List Val) (m : Val) : Prop :=
  m ∈ xs ∧ (∀ v ∈ xs, xs.count v ≤ xs.count m) ∧
    ∀ v ∈ xs, xs.count v = xs.count m → m ≤ v

/-- The `median()` value, defaulting to `0` when undefined. -/
def medianD (cells : List Cell) : ℚ := (medianQ cells).getD 0

/-- The `mode()[0]` value, defaulting when undefined. -/
def modeD (cells : List Cell) : Val := (modeZero cells).getD (.num 0)

theorem medianD_spec {cells : List Cell} (h : numVals cells ≠ []) :
    MedianSpec (numVals cells) (medianD cells) := by
  refine ⟨(numVals cells).insertionSort (· ≤ ·),
    List.perm_insertionSort (· ≤ ·) (numVals cells),
    List.sorted_insertionSort (· ≤ ·) (numVals cells), ?_⟩
  have hlen : ((numVals cells).insertionSort (· ≤ ·)).length ≠ 0 := by
    rw [List.length_insertionSort]
    exact fun hz => h (List.length_eq_zero.mp hz)
  unfold medianD medianQ
  rw [if_neg hlen]
  by_cases hodd :
      ((numVals cells).insertionSort (· ≤ ·)).length % 2 = 1
  · rw [if_pos hodd]
    exact Or.inl ⟨hodd, rfl⟩
  · rw [if_neg hodd]
    refine Or.inr ⟨Nat.mod_two_eq_zero_or_one _ |>.resolve_right hodd, ?_, rfl⟩
    intro hnil
    rw [hnil] at hlen
    exact hlen rfl

theorem modeD_spec {cells : List Cell} (h : nonNullVals cells ≠ []) :
    ModeSpec (nonNullVals cells) (modeD cells) := by
  have hml : modeList cells ≠ [] := modeList_ne_nil h
  cases hm : modeList cells with
  | nil => exact absurd hm hml
  | cons m rest =>
    have hmd : modeD cells = m := by
      unfold modeD modeZero
      rw [hm]
      rfl
    rw [hmd]
    have hmmode : m ∈ modeList cells := by
      rw [hm]
      exact List.mem_cons_self m rest
    unfold modeList at hmmode
    rw [List.mem_filter] at hmmode
    obtain ⟨hmsd, hmax⟩ := hmmode
    have hmax' : ∀ w ∈ sortedDistinct (nonNullVals cells),
        (nonNullVals cells).count w ≤ (nonNullVals cells).count m :=
      of_decide_eq_true hmax
    refine ⟨(sortedDistinct_mem _ m).mp hmsd, ?_, ?_⟩
    · intro v hv
      exact hmax' v ((sortedDistinct_mem _ v).mpr hv)
    · intro v hv hcnt
      have hvml : v ∈ modeList cells := by
        unfold modeList
        rw [List.mem_filter]
        refine ⟨(sortedDistinct_mem _ v).mpr hv, decide_eq_true ?_⟩
        intro w hw
        rw [hcnt]
        exact hmax' w hw
      rw [hm] at hvml
      have hsortml : List.Sorted (· ≤ ·) (modeList cells) := by
        unfold modeList
        exact List.Pairwise.filter _ (sortedDistinct_sorted (nonNullVals cells))
      rw [hm] at hsortml
      rcases List.mem_cons.mp hvml with rfl | hvrest
      · exact Val.leRefl v
      · exact List.rel_of_sorted_cons hsortml v hvrest

/-- C1: the imputation stage fills, per numeric column with at least one
null and at least one numeric value, every null with the column median —
the middle of the ascending arrangement of the non-null values, the mean
of the two middle elements for an even count — and, per categorical
column with at least one null and at least one non-null value, every
null with the column mode: the most frequent non-null value, ties broken
by taking the first value in the ascending order of the distinct values. -/
theorem C1_imputation_contract :
    (∀ cells : List Cell, cells.any isNullCell = true →
      cells.any isStrCell = false → numVals cells ≠ [] →
      imputeNumericCells cells =
        .ok (cells.map (fillWith (.num (medianD cells)))) ∧
      MedianSpec (numVals cells) (medianD cells)) ∧
    (∀ cells : List Cell, cells.any isNullCell = true →
      nonNullVals cells ≠ [] →
      imputeCatCells cells = .ok (cells.map (fillWith (modeD cells))) ∧
      ModeSpec (nonNullVals cells) (modeD cells)) := by
  constructor
  · intro cells hnull hstr hnv
    refine ⟨?_, medianD_spec hnv⟩
    unfold imputeNumericCells
    rw [if_pos hnull]
    rw [if_neg (fun ho => by
      rw [dtypeOf_obj_iff, hstr] at ho
      exact Bool.noConfusion ho)]
    cases hm : medianQ cells with
    | none => exact absurd ((medianQ_eq_none_iff cells).mp hm) hnv
    | some m =>
      have : medianD cells = m := by
        unfold medianD
        rw [hm]
        rfl
      rw [this]
  · intro cells hnull hnv
    refine ⟨?_, modeD_spec hnv⟩
    unfold imputeCatCells
    rw [if_pos hnull]
    cases hm : modeZero cells with
    | none =>
      have hml := modeList_ne_nil hnv
      unfold modeZero at hm
      cases hx : modeList cells with
      | nil => exact absurd hx hml
      | cons a rest =>
        rw [hx] at hm
        exact Option.noConfusion hm
    | some m =>
      have : modeD cells = m := by
        unfold modeD
        rw [hm]
        rfl
      rw [this]

/-- The `Age` scenario column of the spec. -/
def ageDemoCells : List Cell :=
  [some (.num 30), some (.num 25), none, some (.num 40), some (.num 35),
    some (.num 28)]

/-- The `Gender` scenario column of the spec. -/
def genderDemoCells : List Cell :=
  [some (.str "Male"), some (.str "Female"), some (.str "Male"),
    some (.str "Female"), some (.str "Male"), none]

/-- Witness for C1 on the spec scenarios: the `Age` median is 30 and the
null is filled with it; the `Gender` mode is `Male` and the null is
filled with it. -/
theorem C1_imputation_contract_witness :
    medianD ageDemoCells = 30 ∧
    imputeNumericCells ageDemoCells =
      .ok (ageDemoCells.map (fillWith (.num (medianD ageDemoCells)))) ∧
    MedianSpec (numVals ageDemoCells) (medianD ageDemoCells) ∧
    modeD genderDemoCells = .str "Male" ∧
    imputeCatCells genderDemoCells =
      .ok (genderDemoCells.map (fillWith (modeD genderDemoCells))) ∧
    ModeSpec (nonNullVals genderDemoCells) (modeD genderDemoCells) := by
  have h1 := C1_imputation_contract.1 ageDemoCells (by decide) (by decide)
    (by decide)
  have h2 := C1_imputation_contract.2 genderDemoCells (by decide) (by decide)
  exact ⟨by decide, h1.1, h1.2, by decide, h2.1, h2.2⟩

/-! ### Claim C7: row-count preservation -/

/-- Every column of the table has exactly `n` cells. -/
def uniformRows (t : Table) (n : ℕ) : Bool :=
  t.all fun c => c.cells.length == n

theorem uniformRows_iff (t : Table) (n : ℕ) :
    uniformRows t n = true ↔ ∀ c ∈ t, c.cells.length = n := by
  unfold uniformRows
  rw [List.all_eq_true]
  constructor
  · intro h c hc
    simpa using h c hc
  · intro h c hc
    simpa using h c hc

theorem mem_setCol {t : Table} {m : String} {cs : List Cell} {c' : Column} :
    c' ∈ Table.setCol t m cs → c' ∈ t ∨ c'.cells = cs := by
  induction t with
  | nil => intro h; exact absurd h (by simp [Table.setCol])
  | cons d t ih =>
    intro h
    simp only [Table.setCol] at h
    by_cases hd : (d.name == m) = true
    · rw [if_pos hd] at h
      rcases List.mem_cons.mp h with rfl | hrest
      · exact Or.inr rfl
      · exact Or.inl (List.mem_cons_of_mem d hrest)
    · rw [if_neg hd] at h
      rcases List.mem_cons.mp h with rfl | hrest
      · exact Or.inl (List.mem_cons_self c' t)
      · rcases ih hrest with hin | hcs
        · exact Or.inl (List.mem_cons_of_mem d hin)
        · exact Or.inr hcs

theorem applyAt_uniform {t t' : Table} {m : String} {n : ℕ}
    {f : List Cell → Except String (List Cell)}
    (hf : ∀ cells cs, f cells = .ok cs → cs.length = cells.length)
    (hu : uniformRows t n = true) (h : applyAt t m f = .ok t') :
    uniformRows t' n = true := by
  obtain ⟨c, cs, hg, hfc, rfl⟩ := applyAt_ok h
  rw [uniformRows_iff] at hu ⊢
  intro c' hc'
  rcases mem_setCol hc' with hin | hcs
  · exact hu c' hin
  · rw [hcs, hf c.cells cs hfc]
    exact hu c (List.mem_of_find?_eq_some hg)

theorem applyCols_uniform {f : List Cell → Except String (List Cell)}
    {n : ℕ}
    (hf : ∀ cells cs, f cells = .ok cs → cs.length = cells.length) :
    ∀ {ns : List String} {t t' : Table}, uniformRows t n = true →
      applyCols f ns t = .ok t' → uniformRows t' n = true := by
  intro ns
  induction ns with
  | nil =>
    intro t t' hu h
    cases h
    exact hu
  | cons m ms ih =>
    intro t t' hu h
    obtain ⟨t1, ha, hrest⟩ := applyCols_ok_step h
    exact ih (applyAt_uniform hf hu ha) hrest

theorem imputeStage_uniform {t t' : Table} {n : ℕ}
    (hu : uniformRows t n = true) (h : imputeStage t = .ok t') :
    uniformRows t' n = true := by
  obtain ⟨ta, h1, h2⟩ := imputeStage_split h
  exact applyCols_uniform (fun cells cs hc => imputeCatCells_length hc)
    (applyCols_uniform (fun cells cs hc => imputeNumericCells_length hc) hu h1)
    h2

theorem retypeStage_uniform {t t' : Table} {n : ℕ}
    (hu : uniformRows t n = true) (h : retypeStage t = .ok t') :
    uniformRows t' n = true := by
  obtain ⟨tb, h1, h2⟩ := retypeStage_split h
  refine applyAt_uniform ?_
    (applyCols_uniform (fun cells cs hc => retypeNumericCells_length hc) hu h1)
    h2
  intro cells cs hc
  rw [← Except.ok.inj hc]
  exact retypeIdCells_length cells

theorem encodeStage_uniform {t t' : Table} {n : ℕ}
    (hu : uniformRows t n = true) (h : encodeStage t = .ok t') :
    uniformRows t' n = true := by
  unfold encodeStage getDummies at h
  by_cases hp : (encodeCols.all fun m => (t.getCol? m).isSome) = true
  · rw [if_pos hp] at h
    rw [uniformRows_iff] at hu ⊢
    intro c' hc'
    rw [← Except.ok.inj h] at hc'
    rcases List.mem_append.mp hc' with hkept | hdum
    · exact hu c' (List.mem_filter.mp hkept).1
    · obtain ⟨m, hm, hdc⟩ := List.mem_flatMap.mp hdum
      cases hg : t.getCol? m with
      | none =>
        rw [hg] at hdc
        exact absurd hdc (by simp)
      | some c =>
        rw [hg] at hdc
        unfold dummyCols at hdc
        obtain ⟨v, _, rfl⟩ := List.mem_map.mp hdc
        simp only [indicatorCells, List.length_map]
        exact hu c (List.mem_of_find?_eq_some hg)
  · rw [if_neg hp] at h
    exact absurd h (by simp)

/-- The imputation and retyping stages composed. -/
def imputeThenRetype (df : Table) : Except String Table :=
  match imputeStage df with
  | .error e => .error e
  | .ok t => retypeStage t

/-- All three transformation stages composed. -/
def allStages (df : Table) : Except String Table :=
  match imputeThenRetype df with
  | .error e => .error e
  | .ok t => encodeStage t

/-- C7: each stage preserves the row count.  Loading only copies the
table, and whenever the imputation, retyping, or encoding stage succeeds
its output has the input row count; in particular a returned cleaned
table has exactly the row count of the loaded table. -/
theorem C7_row_count (df : Table) (n : ℕ) (h : uniformRows df n = true) :
    uniformRows (okTable (imputeStage df)) n = true ∧
    uniformRows (okTable (imputeThenRetype df)) n = true ∧
    uniformRows (okTable (allStages df)) n = true ∧
    uniformRows (resTable (clean_hr_data (.ok df))) n = true := by
  refine ⟨?_, ?_, ?_, ?_⟩
  · cases h1 : imputeStage df with
    | error e => rfl
    | ok t1 => exact imputeStage_uniform h h1
  · cases h1 : imputeStage df with
    | error e => simp only [imputeThenRetype, h1]; rfl
    | ok t1 =>
      simp only [imputeThenRetype, h1]
      cases h2 : retypeStage t1 with
      | error e => rfl
      | ok t2 => exact retypeStage_uniform (imputeStage_uniform h h1) h2
  · cases h1 : imputeThenRetype df with
    | error e => simp only [allStages, h1]; rfl
    | ok t2 =>
      simp only [allStages, h1]
      cases h3 : encodeStage t2 with
      | error e => rfl
      | ok t3 =>
        have hu2 : uniformRows t2 n = true := by
          unfold imputeThenRetype at h1
          cases hi : imputeStage df with
          | error e => rw [hi] at h1; exact absurd h1 (by simp)
          | ok t1 =>
            rw [hi] at h1
            exact retypeStage_uniform (imputeStage_uniform h hi) h1
        exact encodeStage_uniform hu2 h3
  · cases hr : clean_hr_data (.ok df) with
    | table t' =>
      obtain ⟨t1, t2, h1, h2, h3⟩ := clean_table_split hr
      simp only [resTable]
      exact encodeStage_uniform
        (retypeStage_uniform (imputeStage_uniform h h1) h2) h3
    | absent => rfl
    | exn m => rfl

/-- Witness for C7 on a two-row table: the cleaned output keeps two
rows in every column. -/
theorem C7_row_count_witness :
    uniformRows dfNullFree 2 = true ∧
    uniformRows (resTable (clean_hr_data (.ok dfNullFree))) 2 = true := by
  have h := C7_row_count dfNullFree 2 (by decide)
  exact ⟨by decide, h.2.2.2⟩

/-! ### Claim C4: the retyper postcondition -/

theorem truncCell_int_output {c : Cell} (h : isNumCell c = true) :
    isIntCell (truncCell c) = true := by
  cases c with
  | none => exact absurd h (by simp [isNumCell])
  | some v =>
    cases v with
    | str s => exact absurd h (by simp [isNumCell])
    | num q => simp [truncCell, isIntCell, Rat.den_intCast]

theorem retypeStage_numeric_col {t t2 : Table} {n2 : String}
    (hmem : n2 ∈ numericCols) {c : Column}
    (hg : t.getCol? n2 = some c)
    (h : retypeStage t = .ok t2) :
    ∃ cs, retypeNumericCells c.cells = .ok cs ∧
      t2.getCol? n2 = some ⟨c.name, cs⟩ := by
  obtain ⟨tb, h1, h2⟩ := retypeStage_split h
  obtain ⟨cs, hf, htb⟩ := applyCols_processed (by decide) hmem hg h1
  refine ⟨cs, hf, ?_⟩
  obtain ⟨ci, csi, hgi, hfi, rfl⟩ := applyAt_ok h2
  have hne : n2 ≠ "EmployeeID" := by
    revert hmem
    have hd : ∀ m ∈ numericCols, m ≠ "EmployeeID" := by decide
    exact fun hm => hd n2 hm
  rw [getCol?_setCol_ne tb hne csi]
  exact htb

theorem retypeStage_id_col {t t2 : Table} {c : Column}
    (hg : t.getCol? "EmployeeID" = some c)
    (h : retypeStage t = .ok t2) :
    t2.getCol? "EmployeeID" = some ⟨c.name, retypeIdCells c.cells⟩ := by
  obtain ⟨tb, h1, h2⟩ := retypeStage_split h
  have htb : tb.getCol? "EmployeeID" = some c := by
    rw [applyCols_untouched (by decide) h1]
    exact hg
  obtain ⟨ci, csi, hgi, hfi, rfl⟩ := applyAt_ok h2
  rw [htb] at hgi
  obtain rfl := Option.some.inj hgi
  obtain rfl := Except.ok.inj hfi
  exact getCol?_setCol_self htb _

theorem retypeStage_ok_of (t : Table)
    (h3 : ∀ m ∈ numericCols, ∃ c, t.getCol? m = some c ∧
      ∃ cs, retypeNumericCells c.cells = .ok cs)
    (hI : hasColB t "EmployeeID" = true) :
    ∃ t2, retypeStage t = .ok t2 := by
  obtain ⟨tb, htb⟩ := applyCols_ok (by decide) h3
  have hIb : hasColB tb "EmployeeID" = true := by
    rw [hasColB_of_names _ (applyCols_names htb)]
    exact hI
  obtain ⟨c, hg, _⟩ := getCol?_of_hasColB hIb
  refine ⟨tb.setCol "EmployeeID" (retypeIdCells c.cells), ?_⟩
  simp only [retypeStage, htb, applyAt, hg]

/-- A table meeting the claimed retyping preconditions in which
`EmployeeID` mixes a text cell with a null: the column has `object`
dtype, is left unchanged, and keeps its null. -/
def dfMixedId : Table := [
  ⟨"EmployeeID", [some (.str "a"), none]⟩,
  ⟨"Age", [some (.num 30), some (.num 25)]⟩,
  ⟨"Department", [some (.str "HR"), some (.str "IT")]⟩,
  ⟨"Attrition", [some (.str "No"), some (.str "Yes")]⟩,
  ⟨"Salary", [some (.num 50000), some (.num 60000)]⟩,
  ⟨"Experience", [some (.num 5), some (.num 2)]⟩,
  ⟨"Education", [some (.str "Bachelors"), some (.str "Masters")]⟩,
  ⟨"Gender", [some (.str "Male"), some (.str "Female")]⟩]

/-- C4 counterexample: `dfMixedId` satisfies the claimed preconditions
(numeric columns hold only non-null numbers, all columns present), the
retyping stage succeeds, yet `EmployeeID` does not hold only text values
afterwards — it still contains a null, because an `object`-dtype
`EmployeeID` is not converted by `astype(str)`. -/
theorem C4_counterexample :
    ((colCells dfMixedId "Age").all isNumCell = true ∧
      (colCells dfMixedId "Salary").all isNumCell = true ∧
      (colCells dfMixedId "Experience").all isNumCell = true) ∧
    exOk (retypeStage dfMixedId) = true ∧
    (colCells (okTable (retypeStage dfMixedId)) "EmployeeID").all
      isStrCell = false ∧
    (colCells (okTable (retypeStage dfMixedId)) "EmployeeID").any
      isNullCell = true := by decide

/-- C4 (amended): under the pipeline preconditions — the three numeric
columns hold only non-null numbers and the four columns are present —
the retyping stage succeeds, each numeric column becomes its elementwise
truncation toward zero (so holds only integer values), and `EmployeeID`
holds only text values afterwards, provided `EmployeeID` does not mix
text cells with non-text cells: a fully non-text `EmployeeID` is
converted to text by `astype(str)`, a fully textual one is already text,
but a mixed column is left unchanged with its non-text cells. -/
theorem C4_retyper_postcondition (t : Table)
    (hA : hasColB t "Age" = true) (hS : hasColB t "Salary" = true)
    (hE : hasColB t "Experience" = true)
    (hI : hasColB t "EmployeeID" = true)
    (hAc : (colCells t "Age").all isNumCell = true)
    (hSc : (colCells t "Salary").all isNumCell = true)
    (hEc : (colCells t "Experience").all isNumCell = true)
    (hIc : (colCells t "EmployeeID").any isStrCell = false ∨
      (colCells t "EmployeeID").all isStrCell = true) :
    exOk (retypeStage t) = true ∧
    colCells (okTable (retypeStage t)) "Age" =
      (colCells t "Age").map truncCell ∧
    colCells (okTable (retypeStage t)) "Salary" =
      (colCells t "Salary").map truncCell ∧
    colCells (okTable (retypeStage t)) "Experience" =
      (colCells t "Experience").map truncCell ∧
    (colCells (okTable (retypeStage t)) "Age").all isIntCell = true ∧
    (colCells (okTable (retypeStage t)) "Salary").all isIntCell = true ∧
    (colCells (okTable (retypeStage t)) "Experience").all isIntCell = true ∧
    (colCells (okTable (retypeStage t)) "EmployeeID").all isStrCell
      = true := by
  obtain ⟨cA, hgA, hcA⟩ := getCol?_of_hasColB hA
  obtain ⟨cS, hgS, hcS⟩ := getCol?_of_hasColB hS
  obtain ⟨cE, hgE, hcE⟩ := getCol?_of_hasColB hE
  obtain ⟨cI, hgI, hcI⟩ := getCol?_of_hasColB hI
  rw [hcA] at hAc
  rw [hcS] at hSc
  rw [hcE] at hEc
  rw [hcI] at hIc
  have hok : ∃ t2, retypeStage t = .ok t2 := by
    apply retypeStage_ok_of t ?_ hI
    intro m hm
    have hcase : ∀ m2 ∈ numericCols,
        m2 = "Age" ∨ m2 = "Salary" ∨ m2 = "Experience" := by decide
    rcases hcase m hm with rfl | rfl | rfl
    · exact ⟨cA, hgA, _, retypeNumericCells_clean hAc⟩
    · exact ⟨cS, hgS, _, retypeNumericCells_clean hSc⟩
    · exact ⟨cE, hgE, _, retypeNumericCells_clean hEc⟩
  obtain ⟨t2, ht2⟩ := hok
  have hint : ∀ cells : List Cell, cells.all isNumCell = true →
      (cells.map truncCell).all isIntCell = true := by
    intro cells hcl
    rw [List.all_eq_true]
    intro c hc
    obtain ⟨d, hd, rfl⟩ := List.mem_map.mp hc
    exact truncCell_int_output (List.all_eq_true.mp hcl d hd)
  have colA : colCells t2 "Age" = cA.cells.map truncCell := by
    obtain ⟨cs, hf, hcol⟩ :=
      retypeStage_numeric_col (by decide) hgA ht2
    rw [retypeNumericCells_clean hAc] at hf
    obtain rfl := Except.ok.inj hf
    unfold colCells
    rw [hcol]
  have colS : colCells t2 "Salary" = cS.cells.map truncCell := by
    obtain ⟨cs, hf, hcol⟩ :=
      retypeStage_numeric_col (by decide) hgS ht2
    rw [retypeNumericCells_clean hSc] at hf
    obtain rfl := Except.ok.inj hf
    unfold colCells
    rw [hcol]
  have colE : colCells t2 "Experience" = cE.cells.map truncCell := by
    obtain ⟨cs, hf, hcol⟩ :=
      retypeStage_numeric_col (by decide) hgE ht2
    rw [retypeNumericCells_clean hEc] at hf
    obtain rfl := Except.ok.inj hf
    unfold colCells
    rw [hcol]
  have colI : colCells t2 "EmployeeID" = retypeIdCells cI.cells := by
    have hcol := retypeStage_id_col hgI ht2
    unfold colCells
    rw [hcol]
  rw [ht2]
  simp only [exOk, okTable]
  exact ⟨trivial, by rw [colA, hcA], by rw [colS, hcS], by rw [colE, hcE],
    by rw [colA]; exact hint cA.cells hAc,
    by rw [colS]; exact hint cS.cells hSc,
    by rw [colE]; exact hint cE.cells hEc,
    by rw [colI]; exact retypeIdCells_text hIc⟩

/-- A table meeting the retyping preconditions, with a fractional and a
negative fractional salary cell and a numeric `EmployeeID`. -/
def dfRetypeClean : Table := [
  ⟨"EmployeeID", [some (.num 1), some (.num 2)]⟩,
  ⟨"Age", [some (.num 30), some (.num 25)]⟩,
  ⟨"Department", [some (.str "HR"), some (.str "IT")]⟩,
  ⟨"Attrition", [some (.str "No"), some (.str "Yes")]⟩,
  ⟨"Salary", [some (.num (mkRat 101 2)), some (.num (mkRat (-5) 2))]⟩,
  ⟨"Experience", [some (.num 5), some (.num 2)]⟩,
  ⟨"Education", [some (.str "Bachelors"), some (.str "Masters")]⟩,
  ⟨"Gender", [some (.str "Male"), some (.str "Female")]⟩]

/-- Witness for the amended C4: retyping `dfRetypeClean` succeeds, the
fractional salaries 101/2 and -5/2 are truncated toward zero, all
numeric cells become integers, and `EmployeeID` becomes text. -/
theorem C4_retyper_postcondition_witness :
    exOk (retypeStage dfRetypeClean) = true ∧
    colCells (okTable (retypeStage dfRetypeClean)) "Salary" =
      [some (.num 50), some (.num (-2))] ∧
    (colCells (okTable (retypeStage dfRetypeClean)) "Salary").all
      isIntCell = true ∧
    (colCells (okTable (retypeStage dfRetypeClean)) "EmployeeID").all
      isStrCell = true := by
  have h := C4_retyper_postcondition dfRetypeClean (by decide) (by decide)
    (by decide) (by decide) (by decide) (by decide) (by decide)
    (Or.inl (by decide))
  refine ⟨h.1, ?_, h.2.2.2.2.2.1, h.2.2.2.2.2.2.2⟩
  rw [h.2.2.1]
  decide

/-! ### Claim C5: non-numeric text at the retyping stage -/

/-- A table whose `Age` column holds non-numeric text and no nulls. -/
def dfTextAge : Table := [
  ⟨"EmployeeID", [some (.num 1)]⟩,
  ⟨"Age", [some (.str "abc")]⟩,
  ⟨"Department", [some (.str "HR")]⟩,
  ⟨"Attrition", [some (.str "No")]⟩,
  ⟨"Salary", [some (.num 50000)]⟩,
  ⟨"Experience", [some (.num 5)]⟩,
  ⟨"Education", [some (.str "Bachelors")]⟩,
  ⟨"Gender", [some (.str "Male")]⟩]

/-- C5 counterexample: with non-numeric text in `Age` the pipeline does
not surface any failure — it completes successfully and returns a table
that still carries the text in `Age`, because the retyping loop only
converts `float64` columns and silently skips the `object`-dtype `Age`. -/
theorem C5_counterexample :
    isTable (clean_hr_data (.ok dfTextAge)) = true ∧
    (colCells (resTable (clean_hr_data (.ok dfTextAge))) "Age").any
      isStrCell = true := by decide

/-- C5 (amended): the retyping stage never fails when each numeric
column either holds only non-null numbers (clean data) or contains text:
a column containing non-numeric text has `object` dtype, so `astype(int)`
is never attempted on it and the column passes through unchanged instead
of surfacing a `TypeCoercionError`; retyping of already-clean numeric
data succeeds as well. -/
theorem C5_retype_no_failure (t : Table)
    (hA : hasColB t "Age" = true) (hS : hasColB t "Salary" = true)
    (hE : hasColB t "Experience" = true)
    (hI : hasColB t "EmployeeID" = true)
    (hAc : (colCells t "Age").all isNumCell = true ∨
      (colCells t "Age").any isStrCell = true)
    (hSc : (colCells t "Salary").all isNumCell = true ∨
      (colCells t "Salary").any isStrCell = true)
    (hEc : (colCells t "Experience").all isNumCell = true ∨
      (colCells t "Experience").any isStrCell = true) :
    exOk (retypeStage t) = true ∧
    ((colCells t "Age").any isStrCell = true →
      colCells (okTable (retypeStage t)) "Age" = colCells t "Age") ∧
    ((colCells t "Salary").any isStrCell = true →
      colCells (okTable (retypeStage t)) "Salary" = colCells t "Salary") ∧
    ((colCells t "Experience").any isStrCell = true →
      colCells (okTable (retypeStage t)) "Experience" =
        colCells t "Experience") := by
  obtain ⟨cA, hgA, hcA⟩ := getCol?_of_hasColB hA
  obtain ⟨cS, hgS, hcS⟩ := getCol?_of_hasColB hS
  obtain ⟨cE, hgE, hcE⟩ := getCol?_of_hasColB hE
  rw [hcA] at hAc ⊢
  rw [hcS] at hSc ⊢
  rw [hcE] at hEc ⊢
  have hok1 : ∀ cells : List Cell, cells.all isNumCell = true ∨
      cells.any isStrCell = true → ∃ cs, retypeNumericCells cells = .ok cs := by
    intro cells hc
    rcases hc with hc | hc
    · exact ⟨cells.map truncCell, retypeNumericCells_clean hc⟩
    · exact ⟨cells, retypeNumericCells_text hc⟩
  have hok : ∃ t2, retypeStage t = .ok t2 := by
    apply retypeStage_ok_of t ?_ hI
    intro m hm
    have hcase : ∀ m2 ∈ numericCols,
        m2 = "Age" ∨ m2 = "Salary" ∨ m2 = "Experience" := by decide
    rcases hcase m hm with rfl | rfl | rfl
    · exact ⟨cA, hgA, hok1 cA.cells hAc⟩
    · exact ⟨cS, hgS, hok1 cS.cells hSc⟩
    · exact ⟨cE, hgE, hok1 cE.cells hEc⟩
  obtain ⟨t2, ht2⟩ := hok
  have huc : ∀ n2, n2 ∈ numericCols → ∀ c : Column, t.getCol? n2 = some c →
      c.cells.any isStrCell = true → colCells t2 n2 = c.cells := by
    intro n2 hn2 c hg htext
    obtain ⟨cs, hf, hcol⟩ := retypeStage_numeric_col hn2 hg ht2
    rw [retypeNumericCells_text htext] at hf
    obtain rfl := Except.ok.inj hf
    unfold colCells
    rw [hcol]
  rw [ht2]
  exact ⟨rfl,
    fun h2 => huc "Age" (by decide) cA hgA h2,
    fun h2 => huc "Salary" (by decide) cS hgS h2,
    fun h2 => huc "Experience" (by decide) cE hgE h2⟩

/-- Witness for the amended C5: on the text-bearing `Age` table the
retyping stage succeeds and leaves `Age` unchanged. -/
theorem C5_retype_no_failure_witness :
    exOk (retypeStage dfTextAge) = true ∧
    colCells (okTable (retypeStage dfTextAge)) "Age" =
      colCells dfTextAge "Age" := by
  have h := C5_retype_no_failure dfTextAge (by decide) (by decide)
    (by decide) (by decide) (Or.inr (by decide)) (Or.inl (by decide))
    (Or.inl (by decide))
  exact ⟨h.1, h.2.1 (by decide)⟩

/-! ### Claim C6: one-hot encoding with a dropped reference level -/

/-- The number of distinct observed (non-null) values of a column. -/
def kDistinct (cells : List Cell) : ℕ :=
  (nonNullVals cells).dedup.length

/-- The reference level: the least distinct observed value. -/
def refOf (cells : List Cell) : Val :=
  (sortedDistinct (nonNullVals cells)).headD (.num 0)

/-- How many indicator columns of `c` carry a 1 in row `i`. -/
def dummyOnesAt (c : Column) (i : ℕ) : ℕ :=
  (dummyCols c).countP fun c2 =>
    decide (c2.cells.getD i none = some (.num 1))

/-- No column name produced by `get_dummies` collides with one of the
four encoded column names: the first characters of the four names are
pairwise distinct and an indicator name strictly extends its source
name. -/
theorem dummy_name_ne_encoded :
    ∀ m ∈ encodeCols, ∀ n ∈ encodeCols, ∀ r : String,
      m ++ "_" ++ r ≠ n := by
  intro m hm n hn r h
  have h2 := congrArg String.data h
  rw [String.data_append, String.data_append] at h2
  simp only [encodeCols, List.mem_cons, List.not_mem_nil, or_false] at hm hn
  rcases hm with rfl | rfl | rfl | rfl <;>
    rcases hn with rfl | rfl | rfl | rfl <;>
    simp at h2

theorem sortedDistinct_length (xs : List Val) :
    (sortedDistinct xs).length = xs.dedup.length :=
  (sortedDistinct_perm_dedup xs).length_eq

theorem dummyCols_length (c : Column) :
    (dummyCols c).length = kDistinct c.cells - 1 := by
  unfold dummyCols kDistinct
  rw [List.length_map, List.length_drop, sortedDistinct_length]

theorem refOf_spec {cells : List Cell} (h : nonNullVals cells ≠ []) :
    refOf cells ∈ nonNullVals cells ∧
      ∀ v ∈ nonNullVals cells, refOf cells ≤ v := by
  have hne := sortedDistinct_ne_nil h
  cases hsd : sortedDistinct (nonNullVals cells) with
  | nil => exact absurd hsd hne
  | cons hd rest =>
    have href : refOf cells = hd := by
      unfold refOf
      rw [hsd]
      rfl
    rw [href]
    constructor
    · rw [← sortedDistinct_mem, hsd]
      exact List.mem_cons_self hd rest
    · intro v hv
      have hvsd : v ∈ sortedDistinct (nonNullVals cells) :=
        (sortedDistinct_mem _ v).mpr hv
      rw [hsd] at hvsd
      have hsort := sortedDistinct_sorted (nonNullVals cells)
      rw [hsd] at hsort
      rcases List.mem_cons.mp hvsd with rfl | hvrest
      · exact Val.leRefl v
      · exact List.rel_of_sorted_cons hsort v hvrest

theorem mem_dummyCols_of_ne_ref {c : Column} {v : Val}
    (hv : v ∈ nonNullVals c.cells) (hvr : v ≠ refOf c.cells) :
    (⟨c.name ++ "_" ++ valRepr v, indicatorCells c.cells v⟩ : Column) ∈
      dummyCols c := by
  unfold dummyCols
  have hvsd : v ∈ sortedDistinct (nonNullVals c.cells) :=
    (sortedDistinct_mem _ v).mpr hv
  have hne : sortedDistinct (nonNullVals c.cells) ≠ [] := by
    intro hx
    rw [hx] at hvsd
    exact absurd hvsd (by simp)
  cases hsd : sortedDistinct (nonNullVals c.cells) with
  | nil => exact absurd hsd hne
  | cons hd rest =>
    have href : refOf c.cells = hd := by
      unfold refOf
      rw [hsd]
      rfl
    rw [hsd] at hvsd
    have hvrest : v ∈ rest := by
      rcases List.mem_cons.mp hvsd with rfl | hr
      · exact absurd href.symm hvr
      · exact hr
    simp only [List.drop_succ_cons, List.drop_zero]
    exact List.mem_map.mpr ⟨v, hvrest, rfl⟩

theorem dummyOnesAt_spec {c : Column} {i : ℕ} (hi : i < c.cells.length)
    (hnn : c.cells.any isNullCell = false) :
    dummyOnesAt c i ≤ 1 ∧
      (dummyOnesAt c i = 0 ↔ c.cells.getD i none = some (refOf c.cells)) := by
  have hcell : c.cells.getD i none = c.cells[i] := by
    rw [List.getD_eq_getElem?_getD, List.getElem?_eq_getElem hi]
    rfl
  have hmem : c.cells[i] ∈ c.cells := List.getElem_mem hi
  have hnncell : isNullCell c.cells[i] = false :=
    List.any_eq_false.mp hnn _ hmem |> Bool.eq_false_iff.mpr
  obtain ⟨w, hw⟩ : ∃ w, c.cells[i] = some w := by
    cases hc : c.cells[i] with
    | none => rw [hc] at hnncell; exact absurd hnncell (by simp [isNullCell])
    | some w => exact ⟨w, rfl⟩
  have hwmem : w ∈ nonNullVals c.cells := by
    unfold nonNullVals
    rw [List.mem_filterMap]
    exact ⟨some w, hw ▸ hmem, rfl⟩
  have hcount : dummyOnesAt c i =
      ((sortedDistinct (nonNullVals c.cells)).drop 1).count w := by
    unfold dummyOnesAt dummyCols
    rw [List.countP_map]
    rw [List.count, List.countP_congr]
    intro v hv
    simp only [Function.comp]
    constructor
    · intro hp
      have hp2 := of_decide_eq_true hp
      unfold indicatorCells at hp2
      rw [List.getD_eq_getElem?_getD, List.getElem?_map,
        List.getElem?_eq_getElem hi] at hp2
      simp only [Option.map_some', Option.getD_some, Option.some.injEq,
        Val.num.injEq] at hp2
      by_cases hvw : c.cells[i] = some v
      · rw [hw] at hvw
        obtain rfl := Option.some.inj hvw
        simp
      · rw [if_neg hvw] at hp2
        exact absurd hp2 (by norm_num)
    · intro hp
      have hvw : v = w := by simpa using hp
      subst hvw
      apply decide_eq_true
      unfold indicatorCells
      rw [List.getD_eq_getElem?_getD, List.getElem?_map,
        List.getElem?_eq_getElem hi]
      simp only [Option.map_some', Option.getD_some, Option.some.injEq,
        Val.num.injEq]
      rw [if_pos hw]
  have hnodup : ((sortedDistinct (nonNullVals c.cells)).drop 1).Nodup :=
    (List.drop_sublist 1 _).nodup (sortedDistinct_nodup _)
  constructor
  · rw [hcount]
    exact List.nodup_iff_count_le_one.mp hnodup w
  · rw [hcount, List.count_eq_zero, hcell, hw]
    have hwsd : w ∈ sortedDistinct (nonNullVals c.cells) :=
      (sortedDistinct_mem _ w).mpr hwmem
    cases hsd : sortedDistinct (nonNullVals c.cells) with
    | nil =>
      rw [hsd] at hwsd
      exact absurd hwsd (by simp)
    | cons hd rest =>
      have href : refOf c.cells = hd := by
        unfold refOf
        rw [hsd]
        rfl
      rw [hsd] at hwsd
      have hsdnodup := sortedDistinct_nodup (nonNullVals c.cells)
      rw [hsd] at hsdnodup
      simp only [List.drop_succ_cons, List.drop_zero, href]
      constructor
      · intro hnr
        rcases List.mem_cons.mp hwsd with rfl | hr
        · rfl
        · exact absurd hr hnr
      · intro hwhd
        obtain rfl := Option.some.inj hwhd
        exact (List.nodup_cons.mp hsdnodup).1

theorem getCol?_name {t : Table} {n : String} {c : Column}
    (h : t.getCol? n = some c) : c.name = n := by
  unfold Table.getCol? at h
  have hp := List.find?_some h
  exact eq_of_beq hp

theorem colCells_eq {t : Table} {n : String} {c : Column}
    (h : t.getCol? n = some c) : colCells t n = c.cells := by
  unfold colCells
  rw [h]

theorem encodeStage_eq {t : Table}
    (hp : (encodeCols.all fun n => (t.getCol? n).isSome) = true) :
    encodeStage t =
      .ok ((t.filter fun c => !encodeCols.contains c.name) ++
        (encodeCols.flatMap fun n =>
          match t.getCol? n with
          | some c => dummyCols c
          | none => [])) := by
  unfold encodeStage getDummies
  rw [if_pos hp]

/-- C6: for a fully-imputed input the encoding stage succeeds; every
encoded column name disappears from the output (no output column is
named `Department`, `Attrition`, `Education` or `Gender`); the output
has the non-encoded columns plus, per encoded column with k distinct
observed values, exactly k-1 indicator columns; each non-reference
distinct value contributes an indicator column named from the source
column and the value whose cells are its 0/1 indicator; the reference
level is the least distinct observed value; per row at most one
indicator of a source column is 1, and none is 1 exactly when the row
holds the reference level; and every added column holds only 0/1 cells,
so no nulls are introduced. -/
theorem C6_one_hot_encoding (t : Table)
    (hp : (encodeCols.all fun n => hasColB t n) = true)
    (hnn : ∀ n ∈ encodeCols, (colCells t n).any isNullCell = false) :
    exOk (encodeStage t) = true ∧
    (∀ c2 ∈ okTable (encodeStage t), c2.name ∉ encodeCols) ∧
    (okTable (encodeStage t)).length =
      (t.filter fun c => !encodeCols.contains c.name).length +
        (encodeCols.map fun n => kDistinct (colCells t n) - 1).sum ∧
    (∀ n ∈ encodeCols, ∀ c : Column, t.getCol? n = some c →
      (dummyCols c).length = kDistinct c.cells - 1 ∧
      (nonNullVals c.cells ≠ [] → refOf c.cells ∈ nonNullVals c.cells ∧
        ∀ v ∈ nonNullVals c.cells, refOf c.cells ≤ v) ∧
      (∀ v ∈ nonNullVals c.cells, v ≠ refOf c.cells →
        (⟨c.name ++ "_" ++ valRepr v, indicatorCells c.cells v⟩ : Column) ∈
          okTable (encodeStage t)) ∧
      (∀ i, i < c.cells.length →
        dummyOnesAt c i ≤ 1 ∧
        (dummyOnesAt c i = 0 ↔
          c.cells.getD i none = some (refOf c.cells)))) ∧
    (∀ c2 ∈ okTable (encodeStage t), c2 ∈ t ∨
      ∀ cell ∈ c2.cells, cell = some (.num 0) ∨ cell = some (.num 1)) := by
  have hokeq := encodeStage_eq hp
  rw [hokeq]
  simp only [exOk, okTable]
  have hmemflat : ∀ c2, c2 ∈ (encodeCols.flatMap fun n =>
      match t.getCol? n with
      | some c => dummyCols c
      | none => []) →
      ∃ n ∈ encodeCols, ∃ c : Column, t.getCol? n = some c ∧
        c2 ∈ dummyCols c := by
    intro c2 hc2
    obtain ⟨n, hn, hin⟩ := List.mem_flatMap.mp hc2
    cases hg : t.getCol? n with
    | none =>
      rw [hg] at hin
      exact absurd hin (by simp)
    | some c =>
      rw [hg] at hin
      exact ⟨n, hn, c, hg, hin⟩
  refine ⟨trivial, ?_, ?_, ?_, ?_⟩
  · -- removal
    intro c2 hc2 hname
    rcases List.mem_append.mp hc2 with hkept | hdum
    · have hpred := (List.mem_filter.mp hkept).2
      rw [Bool.not_eq_true'] at hpred
      have : encodeCols.contains c2.name = true :=
        List.elem_eq_true_of_mem hname
      rw [this] at hpred
      exact Bool.noConfusion hpred
    · obtain ⟨n, hn, c, hg, hdc⟩ := hmemflat c2 hdum
      unfold dummyCols at hdc
      obtain ⟨v, _, rfl⟩ := List.mem_map.mp hdc
      have hname2 : (c.name ++ "_" ++ valRepr v) ∈ encodeCols := hname
      have hcn : c.name ∈ encodeCols := by
        rw [getCol?_name hg]
        exact hn
      exact absurd rfl
        (dummy_name_ne_encoded c.name hcn _ hname2 (valRepr v))
  · -- cardinality
    rw [List.length_append, List.length_flatMap]
    congr 1
    congr 1
    apply List.map_congr_left
    intro n hn
    have hs : (t.getCol? n).isSome = true := by
      have := List.all_eq_true.mp hp n hn
      exact this
    cases hg : t.getCol? n with
    | none =>
      rw [hg] at hs
      exact absurd hs (by simp)
    | some c =>
      simp only [Function.comp, hg]
      rw [dummyCols_length, colCells_eq hg]
  · -- per encoded column
    intro n hn c hg
    refine ⟨dummyCols_length c, refOf_spec, ?_, ?_⟩
    · intro v hv hvr
      apply List.mem_append.mpr
      right
      apply List.mem_flatMap.mpr
      refine ⟨n, hn, ?_⟩
      rw [hg]
      exact mem_dummyCols_of_ne_ref hv hvr
    · intro i hi
      have hcn : (colCells t n).any isNullCell = false := hnn n hn
      rw [colCells_eq hg] at hcn
      exact dummyOnesAt_spec hi hcn
  · -- kept or 0/1
    intro c2 hc2
    rcases List.mem_append.mp hc2 with hkept | hdum
    · exact Or.inl (List.mem_filter.mp hkept).1
    · obtain ⟨n, hn, c, hg, hdc⟩ := hmemflat c2 hdum
      right
      unfold dummyCols at hdc
      obtain ⟨v, _, rfl⟩ := List.mem_map.mp hdc
      intro cell hcell
      unfold indicatorCells at hcell
      obtain ⟨d, _, rfl⟩ := List.mem_map.mp hcell
      by_cases hd : d = some v
      · rw [if_pos hd]
        exact Or.inr rfl
      · rw [if_neg hd]
        exact Or.inl rfl

/-- A three-row table realizing the spec scenario: `Department` has the
distinct values HR, IT, Sales. -/
def dfEncodeDemo : Table := [
  ⟨"EmployeeID", [some (.num 1), some (.num 2), some (.num 3)]⟩,
  ⟨"Age", [some (.num 30), some (.num 25), some (.num 41)]⟩,
  ⟨"Department", [some (.str "HR"), some (.str "IT"), some (.str "Sales")]⟩,
  ⟨"Attrition", [some (.str "No"), some (.str "Yes"), some (.str "No")]⟩,
  ⟨"Salary", [some (.num 50000), some (.num 60000), some (.num 70000)]⟩,
  ⟨"Experience", [some (.num 5), some (.num 2), some (.num 9)]⟩,
  ⟨"Education", [some (.str "Bachelors"), some (.str "Masters"),
    some (.str "PhD")]⟩,
  ⟨"Gender", [some (.str "Male"), some (.str "Female"), some (.str "Male")]⟩]

/-- Witness for C6: the encoding stage succeeds on the demo table, and
the `HR` reference level of `Department` is its least distinct value. -/
theorem C6_one_hot_encoding_witness :
    exOk (encodeStage dfEncodeDemo) = true ∧
    refOf (colCells dfEncodeDemo "Department") = .str "HR" ∧
    kDistinct (colCells dfEncodeDemo "Department") = 3 := by
  have h := C6_one_hot_encoding dfEncodeDemo (by decide) (by decide)
  exact ⟨h.1, by decide, by decide⟩

/-! ### Claim C2: completeness of the returned table -/

/-- A successful numeric imputation leaves the column null-free, except
that an all-null numeric column passes through unchanged (its median is
`NaN` and the fill is a no-op). -/
theorem imputeNumericCells_ok_shape {cells cs : List Cell}
    (h : imputeNumericCells cells = .ok cs) :
    cs.any isNullCell = false ∨
      (cs = cells ∧ cells.all isNullCell = true ∧ cells ≠ []) := by
  unfold imputeNumericCells at h
  by_cases hn : (cells.any isNullCell) = true
  · rw [if_pos hn] at h
    by_cases hd : dtypeOf cells = Dtype.obj
    · rw [if_pos hd] at h
      exact absurd h (by simp)
    · rw [if_neg hd] at h
      cases hm : medianQ cells with
      | none =>
        simp only [hm] at h
        obtain rfl := Except.ok.inj h
        right
        have hnv := (medianQ_eq_none_iff cells).mp hm
        have hstr : cells.any isStrCell = false := by
          cases hx : cells.any isStrCell
          · rfl
          · exact absurd ((dtypeOf_obj_iff cells).mpr hx) hd
        refine ⟨rfl, ?_, ?_⟩
        · rw [List.all_eq_true]
          intro c hc
          cases c with
          | none => rfl
          | some v =>
            cases v with
            | num q =>
              exact absurd ((numVals_nil_iff cells).mp hnv (some (.num q)) hc)
                (by simp [isNumCell])
            | str s =>
              exact absurd rfl (List.any_eq_false.mp hstr (some (.str s)) hc)
        · intro hnil
          rw [hnil] at hn
          exact Bool.noConfusion hn
      | some m =>
        simp only [hm] at h
        obtain rfl := Except.ok.inj h
        left
        exact map_fillWith_nullfree _ cells
  · rw [if_neg hn] at h
    obtain rfl := Except.ok.inj h
    left
    cases hx : cells.any isNullCell
    · rfl
    · exact absurd hx hn

theorem retypeNumericCells_keeps_nullfree {cells cs : List Cell}
    (hnf : cells.any isNullCell = false)
    (h : retypeNumericCells cells = .ok cs) :
    cs.any isNullCell = false := by
  obtain ⟨cs2, hok, hnf2, _⟩ := retypeNumericCells_nullfree hnf
  rw [hok] at h
  obtain rfl := Except.ok.inj h
  exact hnf2

theorem find?_filter_of {p q : Column → Bool} :
    ∀ {l : List Column}, (∀ x, q x = true → p x = true) →
      List.find? q (l.filter p) = List.find? q l := by
  intro l
  induction l with
  | nil =>
    intro _
    rfl
  | cons a l ih =>
    intro himp
    by_cases hpa : p a = true
    · rw [List.filter_cons_of_pos hpa]
      cases hqa : q a
      · rw [List.find?_cons_of_neg _ (by simp [hqa]),
          List.find?_cons_of_neg _ (by simp [hqa])]
        exact ih himp
      · rw [List.find?_cons_of_pos _ hqa, List.find?_cons_of_pos _ hqa]
    · rw [List.filter_cons_of_neg hpa]
      have hqa : q a = false := by
        cases hq : q a
        · rfl
        · exact absurd (himp a hq) hpa
      rw [List.find?_cons_of_neg _ (by simp [hqa])]
      exact ih himp

theorem encodeStage_ok_inv {t t' : Table} (h : encodeStage t = .ok t') :
    (encodeCols.all fun n => (t.getCol? n).isSome) = true ∧
      t' = (t.filter fun c => !encodeCols.contains c.name) ++
        (encodeCols.flatMap fun n =>
          match t.getCol? n with
          | some c => dummyCols c
          | none => []) := by
  by_cases hp : (encodeCols.all fun n => (t.getCol? n).isSome) = true
  · rw [encodeStage_eq hp] at h
    exact ⟨hp, (Except.ok.inj h).symm⟩
  · unfold encodeStage getDummies at h
    rw [if_neg hp] at h
    exact absurd h (by simp)

/-- A table with an extra `Bonus` column containing a null; the pipeline
passes it through untouched. -/
def dfExtraBonus : Table := [
  ⟨"EmployeeID", [some (.num 1)]⟩,
  ⟨"Age", [some (.num 30)]⟩,
  ⟨"Department", [some (.str "HR")]⟩,
  ⟨"Attrition", [some (.str "No")]⟩,
  ⟨"Salary", [some (.num 50000)]⟩,
  ⟨"Experience", [some (.num 5)]⟩,
  ⟨"Education", [some (.str "Bachelors")]⟩,
  ⟨"Gender", [some (.str "Male")]⟩,
  ⟨"Bonus", [none]⟩]

/-- C2 counterexample: the pipeline returns a table for `dfExtraBonus`,
and that returned table contains a null cell — the untouched null of the
extra `Bonus` column, which no stage imputes. -/
theorem C2_counterexample :
    isTable (clean_hr_data (.ok dfExtraBonus)) = true ∧
    (resTable (clean_hr_data (.ok dfExtraBonus))).any
      (fun c => c.cells.any isNullCell) = true := by decide

/-- C2 (amended): whenever the pipeline returns a table, the three
numeric columns of the output are null-free, and every column of the
output that was not a column of the input (the indicator columns created
by the encoding) is null-free; columns outside the pipeline's fixed
scope — extra passthrough columns, and a text-typed `EmployeeID` with
nulls — may retain null cells. -/
theorem C2_output_nullfree (df : Table)
    (h : isTable (clean_hr_data (.ok df)) = true) :
    (∀ n ∈ numericCols,
      (colCells (resTable (clean_hr_data (.ok df))) n).any isNullCell
        = false) ∧
    (∀ c2 ∈ resTable (clean_hr_data (.ok df)),
      ((df.map Column.name).contains c2.name) = false →
      c2.cells.any isNullCell = false) := by
  obtain ⟨t', ht'⟩ : ∃ t2, clean_hr_data (.ok df) = .table t2 :=
    (isTable_iff _).mp h
  rw [ht']
  simp only [resTable]
  obtain ⟨t1, t2, himp, hrty, henc⟩ := clean_table_split ht'
  obtain ⟨ta, hnumf, hcatf⟩ := imputeStage_split himp
  obtain ⟨tb, hrnumf, hid⟩ := retypeStage_split hrty
  obtain ⟨ci, csi, hgi, hfi, rfl⟩ := applyAt_ok hid
  obtain ⟨hpres, hteq⟩ := encodeStage_ok_inv henc
  constructor
  · intro n hn
    have hcol : hasColB df n = true := applyCols_present hnumf n hn
    obtain ⟨c, hg, _⟩ := getCol?_of_hasColB hcol
    obtain ⟨cs, hfc, hta⟩ := applyCols_processed (by decide) hn hg hnumf
    have hnotcat : n ∉ catImputeCols := by
      have hd : ∀ m ∈ numericCols, m ∉ catImputeCols := by decide
      exact hd n hn
    have ht1 : t1.getCol? n = some ⟨c.name, cs⟩ := by
      rw [applyCols_untouched hnotcat hcatf]
      exact hta
    obtain ⟨cs2, hfc2, htbcol⟩ :=
      applyCols_processed (by decide) hn ht1 hrnumf
    have hcsnf : cs.any isNullCell = false := by
      rcases imputeNumericCells_ok_shape hfc with hnf | ⟨rfl, hall, hne⟩
      · exact hnf
      · rw [retypeNumericCells_allnull hne hall] at hfc2
        exact absurd hfc2 (by simp)
    have hcs2nf : cs2.any isNullCell = false :=
      retypeNumericCells_keeps_nullfree hcsnf hfc2
    have hne2 : n ≠ "EmployeeID" := by
      have hd : ∀ m ∈ numericCols, m ≠ "EmployeeID" := by decide
      exact hd n hn
    have ht2col : (Table.setCol tb "EmployeeID" csi).getCol? n =
        some ⟨c.name, cs2⟩ := by
      rw [getCol?_setCol_ne tb hne2 csi]
      exact htbcol
    have hkeep : ∀ x : Column, (x.name == n) = true →
        (!encodeCols.contains x.name) = true := by
      intro x hx
      have hxn : x.name = n := eq_of_beq hx
      have hnenc : n ∉ encodeCols := by
        have hd : ∀ m ∈ numericCols, m ∉ encodeCols := by decide
        exact hd n hn
      rw [Bool.not_eq_true', hxn]
      cases hcont : encodeCols.contains n
      · rfl
      · rw [List.contains_eq_any_beq, List.any_eq_true] at hcont
        obtain ⟨m, hm, hbeq⟩ := hcont
        exact absurd ((eq_of_beq hbeq) ▸ hm) hnenc
    have hfind : t'.getCol? n = some ⟨c.name, cs2⟩ := by
      rw [hteq]
      unfold Table.getCol?
      rw [List.find?_append]
      have hkept :
          List.find? (fun c2 => c2.name == n)
            ((Table.setCol tb "EmployeeID" csi).filter
              fun c2 => !encodeCols.contains c2.name) =
            some ⟨c.name, cs2⟩ := by
        rw [find?_filter_of hkeep]
        exact ht2col
      rw [hkept, Option.or_some]
    rw [colCells_eq hfind]
    exact hcs2nf
  · intro c2 hc2 hnotin
    rw [hteq] at hc2
    rcases List.mem_append.mp hc2 with hkept | hdum
    · have hmem2 : c2 ∈ Table.setCol tb "EmployeeID" csi :=
        (List.mem_filter.mp hkept).1
      have hname : c2.name ∈ df.map Column.name := by
        rw [← imputeStage_names himp, ← retypeStage_names hrty]
        exact List.mem_map_of_mem Column.name hmem2
      have hcontains : (df.map Column.name).contains c2.name = true :=
        List.elem_eq_true_of_mem hname
      rw [hcontains] at hnotin
      exact Bool.noConfusion hnotin
    · obtain ⟨n, hn, hin⟩ := List.mem_flatMap.mp hdum
      cases hg2 : (Table.setCol tb "EmployeeID" csi).getCol? n with
      | none =>
        rw [hg2] at hin
        exact absurd hin (by simp)
      | some c =>
        rw [hg2] at hin
        unfold dummyCols at hin
        obtain ⟨v, _, rfl⟩ := List.mem_map.mp hin
        rw [List.any_eq_false]
        intro cell hcell
        unfold indicatorCells at hcell
        obtain ⟨d, _, rfl⟩ := List.mem_map.mp hcell
        intro hx
        exact Bool.noConfusion hx

/-- Witness for the amended C2: on the `Bonus` table the pipeline
returns a table whose `Age` column is null-free. -/
theorem C2_output_nullfree_witness :
    (colCells (resTable (clean_hr_data (.ok dfExtraBonus))) "Age").any
      isNullCell = false := by
  have h := C2_output_nullfree dfExtraBonus (by decide)
  exact h.1 "Age" (by decide)
